import Mathlib

/-!
Verification of the structure-mapping and expression-evaluation core of
`hdf_scan_inspector` (files `hdf_scan_inspector/hdf_functions.py` and
`hdf_scan_inspector/functions.py`).

The HDF file is modelled as a tree of groups and datasets.  Python `dict`s
are modelled as association lists with insert-or-replace update, which
matches Python's key-update-in-place semantics for all lookup and
membership observations.  Exceptions are modelled with `Except String`.
-/

/-! ## Python dict model -/

/-- A Python `dict` with string keys: an association list where an update
replaces the value of an existing key in place. -/
abbrev SDict (α : Type) := List (String × α)

/-- Python `d[k]`, returning `none` where Python raises `KeyError`. -/
def dlookup {α : Type} : SDict α → String → Option α
  | [], _ => none
  | (k, v) :: r, key => if k = key then some v else dlookup r key

/-- Python `d[k] = v`: replace the binding of an existing key, else append. -/
def dinsert {α : Type} (d : SDict α) (key : String) (v : α) : SDict α :=
  match d with
  | [] => [(key, v)]
  | (k, w) :: r => if k = key then (k, v) :: r else (k, w) :: dinsert r key v

/-- Build a fresh `dict` from a list of pairs (later pairs override). -/
def dofList {α : Type} (l : List (String × α)) : SDict α :=
  l.foldl (fun d kv => dinsert d kv.1 kv.2) []

/-- Python `{**a, **b}` restricted to two arguments: insert all of `b` into `a`. -/
def dmerge {α : Type} (a b : SDict α) : SDict α :=
  b.foldl (fun d kv => dinsert d kv.1 kv.2) a

/-- Python `{**d1, **d2, ...}`: left-to-right merge into a fresh dict. -/
def pyMerge {α : Type} (ds : List (SDict α)) : SDict α :=
  ds.foldl dmerge []

/-- The keys of a dict, in insertion order. -/
def dkeys {α : Type} (d : SDict α) : List String := d.map (fun kv => kv.1)

/-- A dict whose keys appear at most once (true of every dict built by
`dinsert` from `[]`). -/
def NoDupKeys {α : Type} (d : SDict α) : Prop := (dkeys d).Nodup

theorem dlookup_mem {α : Type} {d : SDict α} {k : String} {v : α}
    (h : dlookup d k = some v) : (k, v) ∈ d := by
  induction d with
  | nil => simp [dlookup] at h
  | cons kv r ih =>
      obtain ⟨k', v'⟩ := kv
      simp only [dlookup] at h
      by_cases hk : k' = k
      · simp [hk] at h
        simp [hk, h]
      · simp [hk] at h
        exact List.mem_cons_of_mem _ (ih h)

theorem mem_dlookup {α : Type} {d : SDict α} {k : String} {v : α}
    (hd : NoDupKeys d) (h : (k, v) ∈ d) : dlookup d k = some v := by
  induction d with
  | nil => simp at h
  | cons kv r ih =>
      obtain ⟨k', v'⟩ := kv
      simp only [NoDupKeys, dkeys, List.map_cons, List.nodup_cons] at hd
      rcases List.mem_cons.mp h with h1 | h2
      · cases h1
        simp [dlookup]
      · have hk : k' ≠ k := by
          intro he
          exact hd.1 (he ▸ (List.mem_map.mpr ⟨(k, v), h2, rfl⟩))
        simp [dlookup, hk]
        exact ih hd.2 h2

theorem dlookup_dinsert_self {α : Type} (d : SDict α) (k : String) (v : α) :
    dlookup (dinsert d k v) k = some v := by
  induction d with
  | nil => simp [dinsert, dlookup]
  | cons kv r ih =>
      obtain ⟨k', v'⟩ := kv
      by_cases hk : k' = k
      · simp [dinsert, hk, dlookup]
      · simp [dinsert, hk, dlookup, ih]

theorem dlookup_dinsert_ne {α : Type} (d : SDict α) {k k' : String} (v : α)
    (h : k ≠ k') : dlookup (dinsert d k v) k' = dlookup d k' := by
  induction d with
  | nil => simp [dinsert, dlookup, h]
  | cons kv r ih =>
      obtain ⟨ka, va⟩ := kv
      by_cases hk : ka = k
      · subst hk
        simp [dinsert, dlookup, h]
      · simp [dinsert, hk, dlookup]
        by_cases hk' : ka = k'
        · simp [hk']
        · simp [hk', ih]

theorem dlookup_dinsert {α : Type} (d : SDict α) (k k' : String) (v : α) :
    dlookup (dinsert d k v) k' = if k = k' then some v else dlookup d k' := by
  by_cases h : k = k'
  · subst h; simp [dlookup_dinsert_self]
  · simp [h, dlookup_dinsert_ne d v h]

theorem dkeys_dinsert {α : Type} (d : SDict α) (k : String) (v : α) :
    dkeys (dinsert d k v) = if k ∈ dkeys d then dkeys d else dkeys d ++ [k] := by
  induction d with
  | nil => simp [dinsert, dkeys]
  | cons kv r ih =>
      obtain ⟨ka, va⟩ := kv
      by_cases hk : ka = k
      · subst hk
        simp [dinsert, dkeys]
      · simp only [dinsert, if_neg hk, dkeys, List.map_cons]
        simp only [dkeys] at ih
        rw [ih]
        by_cases hm : k ∈ r.map (fun kv => kv.1)
        · simp [hm, Ne.symm hk]
        · simp [hm, Ne.symm hk]

theorem noDupKeys_dinsert {α : Type} {d : SDict α} (hd : NoDupKeys d)
    (k : String) (v : α) : NoDupKeys (dinsert d k v) := by
  unfold NoDupKeys at *
  rw [dkeys_dinsert]
  by_cases hm : k ∈ dkeys d
  · simpa [hm] using hd
  · simp only [hm, if_false]
    refine List.Nodup.append hd (List.nodup_singleton k) ?_
    intro a ha hb
    simp only [List.mem_singleton] at hb
    exact hm (hb ▸ ha)

theorem dlookup_isSome_dinsert {α : Type} (d : SDict α) (k k' : String) (v : α)
    (h : (dlookup d k').isSome) : (dlookup (dinsert d k v) k').isSome := by
  rw [dlookup_dinsert]
  by_cases hk : k = k' <;> simp [hk, h]

/-! Lookup distributes over list append (used for the merge lemmas). -/

theorem dlookup_append {α : Type} (a b : SDict α) (k : String) :
    dlookup (a ++ b) k = (dlookup a k).orElse (fun _ => dlookup b k) := by
  induction a with
  | nil => simp [dlookup]
  | cons kv r ih =>
      obtain ⟨ka, va⟩ := kv
      by_cases hk : ka = k
      · simp [dlookup, hk]
      · simp [dlookup, hk, ih]

/-- Folding `dinsert` over a pair list: the last occurrence of a key in the
inserted list wins; keys not present fall through to the base dict. -/
theorem dlookup_foldl_dinsert {α : Type} (l : List (String × α)) (a : SDict α) (k : String) :
    dlookup (l.foldl (fun d kv => dinsert d kv.1 kv.2) a) k
      = (dlookup l.reverse k).orElse (fun _ => dlookup a k) := by
  induction l generalizing a with
  | nil => simp [dlookup]
  | cons kv r ih =>
      obtain ⟨ka, va⟩ := kv
      simp only [List.foldl_cons, List.reverse_cons]
      rw [ih, dlookup_append]
      by_cases hmem : (dlookup r.reverse k).isSome
      · obtain ⟨w, hw⟩ := Option.isSome_iff_exists.mp hmem
        simp [hw]
      · have hnone : dlookup r.reverse k = none := Option.not_isSome_iff_eq_none.mp hmem
        simp [hnone, dlookup, dlookup_dinsert]
        by_cases hk : ka = k <;> simp [hk]

theorem dlookup_dmerge {α : Type} (a b : SDict α) (k : String) :
    dlookup (dmerge a b) k = (dlookup b.reverse k).orElse (fun _ => dlookup a k) :=
  dlookup_foldl_dinsert b a k

theorem dlookup_dofList {α : Type} (l : List (String × α)) (k : String) :
    dlookup (dofList l) k = dlookup l.reverse k := by
  unfold dofList
  rw [dlookup_foldl_dinsert]
  cases h : dlookup l.reverse k <;> simp [h, dlookup]

/-- In a dict without duplicate keys, lookup is insensitive to reversal. -/
theorem dlookup_reverse_of_noDup {α : Type} {d : SDict α} (hd : NoDupKeys d) (k : String) :
    dlookup d.reverse k = dlookup d k := by
  cases h : dlookup d k with
  | some v =>
      have hm : (k, v) ∈ d.reverse := by simpa using dlookup_mem h
      have hrev : NoDupKeys d.reverse := by
        unfold NoDupKeys dkeys at *
        simpa [List.map_reverse] using hd
      exact mem_dlookup hrev hm
  | none =>
      cases h2 : dlookup d.reverse k with
      | none => rfl
      | some w =>
          have hm : (k, w) ∈ d := by simpa using dlookup_mem h2
          have := mem_dlookup hd hm
          rw [h] at this
          exact absurd this (by simp)

theorem noDupKeys_dofList {α : Type} (l : List (String × α)) : NoDupKeys (dofList l) := by
  unfold dofList
  have : ∀ (a : SDict α), NoDupKeys a →
      NoDupKeys (l.foldl (fun d kv => dinsert d kv.1 kv.2) a) := by
    induction l with
    | nil => intro a ha; simpa using ha
    | cons kv r ih =>
        intro a ha
        exact ih _ (noDupKeys_dinsert ha kv.1 kv.2)
  exact this [] (by simp [NoDupKeys, dkeys])

/-! ## String helpers (substring test, path splitting) -/

/-- `pat` is a prefix of `l` (character lists). -/
def startsWithL : List Char → List Char → Bool
  | [], _ => true
  | _ :: _, [] => false
  | a :: as, b :: bs => (a = b) && startsWithL as bs

/-- Python's `pat in s` substring test on character lists. -/
def containsSubL (pat : List Char) : List Char → Bool
  | [] => pat.isEmpty
  | c :: t => startsWithL pat (c :: t) || containsSubL pat t

/-- Python's `pat in s` substring containment test for strings. -/
def containsSub (pat s : String) : Bool := containsSubL pat.toList s.toList

theorem startsWithL_append_left {a b l : List Char}
    (h : startsWithL (a ++ b) l = true) : startsWithL a l = true := by
  induction a generalizing l with
  | nil => simp [startsWithL]
  | cons c r ih =>
      cases l with
      | nil => simp [startsWithL] at h
      | cons d t =>
          simp only [List.cons_append, startsWithL, Bool.and_eq_true] at h ⊢
          exact ⟨h.1, ih h.2⟩

theorem containsSubL_append_left {a b l : List Char}
    (h : containsSubL (a ++ b) l = true) : containsSubL a l = true := by
  induction l with
  | nil =>
      simp only [containsSubL, List.isEmpty_iff, List.append_eq_nil] at h ⊢
      exact h.1
  | cons c t ih =>
      simp only [containsSubL, Bool.or_eq_true] at h ⊢
      rcases h with h | h
      · exact Or.inl (startsWithL_append_left h)
      · exact Or.inr (ih h)

theorem startsWithL_refl (l : List Char) : startsWithL l l = true := by
  induction l with
  | nil => rfl
  | cons c t ih => simp [startsWithL, ih]

theorem containsSub_refl (s : String) : containsSub s s = true := by
  unfold containsSub
  cases h : s.toList with
  | nil => simp [containsSubL]
  | cons c t =>
      simp only [containsSubL, Bool.or_eq_true]
      exact Or.inl (startsWithL_refl (c :: t))

/-- Python `s.split(sep)` for a single-character separator, on char lists
(always returns at least one, possibly empty, segment). -/
def charSplit (sep : Char) : List Char → List (List Char)
  | [] => [[]]
  | c :: r =>
      let rest := charSplit sep r
      if c = sep then [] :: rest
      else
        match rest with
        | [] => [[c]]
        | h :: t => (c :: h) :: t

/-- `s.split('/')` as a list of strings. -/
def splitSlash (s : String) : List String := (charSplit '/' s.toList).map String.mk

/-- The non-empty segments of a slash-separated path (h5py skips empty
segments when resolving). -/
def pathSegs (p : String) : List String := (splitSlash p).filter (fun s => s ≠ "")

/-! ## Source constants (`hdf_functions.py` lines 24-35) -/

/-- `SEP = '/'`: the HDF address separator. -/
def SEP : String := "/"

/-- `NX_SIGNAL = 'signal'`. -/
def NX_SIGNAL : String := "signal"

/-- `NX_AXES = 'axes'`. -/
def NX_AXES : String := "axes"

/-- `GLOBALS_NAMELIST = dir(builtins) + list(GLOBALS.keys())`; the model keeps
a representative list of Python builtins plus the `np` alias. -/
def GLOBALS_NAMELIST : List String :=
  ["abs", "all", "any", "bool", "dict", "enumerate", "float", "int", "len",
   "list", "max", "min", "print", "range", "round", "set", "sorted", "str",
   "sum", "tuple", "type", "zip", "np"]

/-! ## `address_name` (`hdf_functions.py` lines 48-54)

The source replaces dots, splits on `/`, and then contains the branch
`return address.split(SEP)[-1] if name == 'value' else name`, whose two arms
return the same last segment; it is embedded exactly as written. -/

/-- `address_name(address)`: convert an HDF address to a short name. -/
def addressName (address : String) : String :=
  let address := String.mk (address.toList.map (fun c => if c = '.' then '_' else c))
  let name := (splitSlash address).getLastD ""
  if name = "value" then (splitSlash address).getLastD "" else name

/-- `os.path.basename` for POSIX paths, as used for `filename`. -/
def pyBasename (p : String) : String := (splitSlash p).getLastD ""

/-! ## HDF file model

A file is a tree of groups and datasets.  Each node carries the attributes
the mapper reads: `NX_class` (whose read may fail with `OSError`, the case
the source guards at `hdf_functions.py` lines 694-699), `local_name`,
and the NeXus `default`/`axes`/`signal` attributes.  A dataset stores its
shape and a scalar payload standing for `dataset[()]`.  Soft links carry
their resolved target's data inline with `soft = true`; the mapper skips
soft-linked datasets (line 709) but recurses into groups regardless of
link type (line 693). -/

/-- An `NX_class` attribute value: an `str` (the `AttributeError` path of the
source, which stores it undecoded) or a byte string (decoded with `.decode()`). -/
inductive NxClassVal where
  | text (s : String)
  | bytes (s : String)
  deriving Repr, DecidableEq

/-- An `axes` attribute value: a single name or a list of names. -/
inductive AxesVal where
  | one (s : String)
  | many (l : List String)
  deriving Repr, DecidableEq

/-- The attributes of a group or dataset that the mapper reads. `readable`
models whether reading `NX_class` raises `OSError` (source line 698). -/
structure NodeAttrs where
  readable : Bool
  nx_class : Option NxClassVal
  local_name : Option String
  default : Option String
  axes : Option AxesVal
  signal : Option String
  deriving Repr, DecidableEq

/-- A node with every attribute absent and readable. -/
def noAttrs : NodeAttrs :=
  { readable := true, nx_class := none, local_name := none,
    default := none, axes := none, signal := none }

/-- An HDF tree node: a dataset (shape, attributes, soft-link flag, payload)
or a group (attributes, soft-link flag, children in iteration order). -/
inductive HNode where
  | dset (shape : List Nat) (attrs : NodeAttrs) (soft : Bool) (value : Int)
  | grp (attrs : NodeAttrs) (soft : Bool) (children : List (String × HNode))

/-- An open HDF file: its filename, root attributes and root children. -/
structure HFile where
  filename : String
  attrs : NodeAttrs
  children : List (String × HNode)

/-- Resolve a slash-separated path from a node (h5py `group[path]` and the
`path in file` membership test; empty segments are skipped). -/
def walkPath : HNode → List String → Option HNode
  | n, [] => some n
  | HNode.grp a s cs, seg :: rest =>
      match cs.find? (fun kv => kv.1 = seg) with
      | some kv => walkPath kv.2 rest
      | none =>
          -- unused binders kept so the pattern is exhaustive
          let _ := a; let _ := s
          none
  | HNode.dset _ _ _ _, _ :: _ => none

/-- The root of a file viewed as a group node. -/
def rootNode (f : HFile) : HNode := HNode.grp f.attrs false f.children

/-- `file[path]` / `path in file`: resolve an address string from the root. -/
def resolvePath (f : HFile) (path : String) : Option HNode :=
  walkPath (rootNode f) (pathSegs path)

/-- The payload of the dataset at `path`, if `path` resolves to a dataset. -/
def dsetValueAt (f : HFile) (path : String) : Option Int :=
  match resolvePath f path with
  | some (HNode.dset _ _ _ v) => some v
  | _ => none

/-- `np.prod(shape)`-style element count; `1` for a scalar (empty shape). -/
def sizeOfShape (shape : List Nat) : Nat := shape.prod

/-! ## The `HdfMap` structure (`hdf_functions.py` lines 575-594) -/

/-- The tuple `(name, size, shape, attrs)` stored per dataset (line 710). -/
structure DsetInfo where
  name : String
  size : Nat
  shape : List Nat
  attrs : NodeAttrs
  deriving Repr, DecidableEq

/-- The `HdfMap` container: groups, classes, datasets, arrays, values,
scannables, combined and image_data. -/
structure HdfMapS where
  groups : SDict (String × String)
  classes : SDict (List String)
  datasets : SDict DsetInfo
  arrays : SDict String
  values : SDict String
  scannables : SDict String
  combined : SDict String
  image_data : SDict DsetInfo
  deriving Repr, DecidableEq

/-- A freshly constructed `HdfMap()` with all dicts empty. -/
def emptyMap : HdfMapS :=
  { groups := [], classes := [], datasets := [], arrays := [], values := [],
    scannables := [], combined := [], image_data := [] }

/-! ## Traversal (`map_hdf.recur_func`, lines 683-723; identical to
`HdfMap2._populate`, lines 436-476) -/

/-- The class tag computed at lines 694-699: decode a byte-string `NX_class`,
keep an `str` one (the `AttributeError` path), default to `"Group"` when the
attribute is missing or its read raises `OSError`. -/
def pyClassTag (a : NodeAttrs) : String :=
  if a.readable then
    match a.nx_class with
    | none => "Group"
    | some (NxClassVal.bytes s) => s
    | some (NxClassVal.text s) => s
  else "Group"

/-- Lines 701-704: append the address to `classes[nx_class]`, creating the
list on first sight. -/
def classesAppend (c : SDict (List String)) (tag addr : String) : SDict (List String) :=
  match dlookup c tag with
  | none => dinsert c tag [addr]
  | some l => dinsert c tag (l ++ [addr])

/-- The `altname` of line 689: `address_name(attrs['local_name'])` when the
attribute exists, else the name itself. -/
def altnameOf (attrs : NodeAttrs) (name : String) : String :=
  match attrs.local_name with
  | some ln => addressName ln
  | none => name

/-- Dataset registration, lines 710-723: record the dataset tuple, then
classify by dimensionality into image_data+arrays, arrays, or values
(registering both the name and the altname). -/
def visitDset (m : HdfMapS) (address : String) (shape : List Nat)
    (attrs : NodeAttrs) : HdfMapS :=
  let name := addressName address
  let altname := altnameOf attrs name
  let info : DsetInfo :=
    { name := name, size := sizeOfShape shape, shape := shape, attrs := attrs }
  let m := { m with datasets := dinsert m.datasets address info }
  if shape.length ≥ 3 then
    { m with image_data := dinsert m.image_data address info,
             arrays := dinsert (dinsert m.arrays name address) altname address }
  else if shape.length > 0 then
    { m with arrays := dinsert (dinsert m.arrays name address) altname address }
  else
    { m with values := dinsert (dinsert m.values name address) altname address }

mutual

/-- `recur_func` acting on a single child entry: groups are registered in
`groups`/`classes` and recursed into (regardless of link type); non-soft
datasets are registered via `visitDset`; soft-linked datasets are skipped. -/
def visitNode (m : HdfMapS) (top key : String) : HNode → HdfMapS
  | HNode.grp attrs _ children =>
      let address := top ++ SEP ++ key
      let tag := pyClassTag attrs
      let m :=
        { m with
          groups := dinsert m.groups address (tag, addressName address),
          classes := classesAppend m.classes tag address }
      visitList m address children
  | HNode.dset shape attrs soft _ =>
      let address := top ++ SEP ++ key
      if soft then m else visitDset m address shape attrs

/-- `recur_func`'s `for key in hdf_group` loop over the children. -/
def visitList (m : HdfMapS) (top : String) : List (String × HNode) → HdfMapS
  | [] => m
  | (k, n) :: rest => visitList (visitNode m top k n) top rest

end

/-! ## NeXus default axes (`get_nexus_axes_datasets`, lines 826-854) -/

/-- Result of `get_nexus_axes_datasets` as observed by `map_hdf`: the access
paths of the first axes dataset and the signal dataset; `keyErr` for the
`KeyError`s the caller catches; `fatal` for exceptions the caller does not
catch (`StopIteration` from an empty file, subscripting a dataset, an empty
`axes` list). -/
inductive NexusResult where
  | found (axesName signalName : String)
  | keyErr
  | fatal (msg : String)
  deriving Repr, DecidableEq

/-- `get_nexus_axes_datasets(hdf_object)`: find the default entry group
(root `default` attribute or first key), the default data group (`default`
attribute or `"measurement"`), then resolve the `axes` and `signal`
attributes to datasets, returning their access paths (`dataset.name`). -/
def getNexusAxes (f : HFile) : NexusResult :=
  let root := rootNode f
  let entryKey? : Except NexusResult String :=
    match f.attrs.default with
    | some d => Except.ok d
    | none =>
        match f.children with
        | [] => Except.error (NexusResult.fatal "StopIteration")
        | (k, _) :: _ => Except.ok k
  match entryKey? with
  | Except.error e => e
  | Except.ok entryKey =>
    match walkPath root (pathSegs entryKey) with
    | none => NexusResult.keyErr
    | some nxEntry =>
      let dataKey :=
        match nxEntry with
        | HNode.grp a _ _ => match a.default with
            | some d => d
            | none => "measurement"
        | HNode.dset a _ _ _ =>
            -- a dataset has no `default` attribute field read here; the
            -- subscription below fails fatally as in h5py
            let _ := a; "measurement"
      match nxEntry with
      | HNode.dset _ _ _ _ => NexusResult.fatal "TypeError: dataset subscription"
      | HNode.grp _ _ entryChildren =>
        match walkPath (HNode.grp noAttrs false entryChildren) (pathSegs dataKey) with
        | none => NexusResult.keyErr
        | some nxData =>
          let dataAttrs :=
            match nxData with
            | HNode.grp a _ _ => a
            | HNode.dset _ a _ _ => a
          match dataAttrs.axes with
          | none => NexusResult.keyErr
          | some av =>
            match nxData with
            | HNode.dset _ _ _ _ => NexusResult.fatal "TypeError: dataset subscription"
            | HNode.grp _ _ dataChildren =>
              let axesKeys : List String :=
                match av with
                | AxesVal.one s => [s]
                | AxesVal.many l => l
              -- the comprehension resolves every axes name (KeyError on a
              -- missing one) before `axes_datasets[0]` is taken (IndexError
              -- on an empty list)
              if axesKeys.any (fun s =>
                  (walkPath (HNode.grp noAttrs false dataChildren)
                    (pathSegs s)).isNone) then
                NexusResult.keyErr
              else
                match axesKeys with
                | [] => NexusResult.fatal "IndexError"
                | axesKey :: _ =>
                  match dataAttrs.signal with
                  | none => NexusResult.keyErr
                  | some sg =>
                    match walkPath (HNode.grp noAttrs false dataChildren) (pathSegs sg) with
                    | none => NexusResult.keyErr
                    | some _ =>
                      NexusResult.found
                        (SEP ++ entryKey ++ SEP ++ dataKey ++ SEP ++ axesKey)
                        (SEP ++ entryKey ++ SEP ++ dataKey ++ SEP ++ sg)

/-- The `Defaults` block of `map_hdf` (lines 672-681): pre-seed
`arrays['axes']` and `arrays['signal']` with the resolved dataset names when
they are addresses present in the file; `KeyError` is swallowed, other
exceptions propagate. -/
def seedDefaults (f : HFile) (m : HdfMapS) : Except String HdfMapS :=
  match getNexusAxes f with
  | NexusResult.fatal e => Except.error e
  | NexusResult.keyErr => Except.ok m
  | NexusResult.found axesName signalName =>
      let m :=
        if (resolvePath f axesName).isSome then
          { m with arrays := dinsert m.arrays NX_AXES axesName }
        else m
      let m :=
        if (resolvePath f signalName).isSome then
          { m with arrays := dinsert m.arrays NX_SIGNAL signalName }
        else m
      Except.ok m

/-! ## Post-pass: scannables and combined -/

/-- The comprehension of line 728 / `most_common_size` line 480: look up each
arrays entry in `datasets` (raising `KeyError` when absent) pairing it with
its element count. -/
def collectSizes (ds : SDict DsetInfo) :
    List (String × String) → Except String (List (String × String × Nat))
  | [] => Except.ok []
  | (k, a) :: r =>
      match dlookup ds a with
      | some i =>
          match collectSizes ds r with
          | Except.ok t => Except.ok ((k, a, i.size) :: t)
          | Except.error e => Except.error e
      | none => Except.error "KeyError"

/-- Python `max(set(l), key=l.count)`: the first element (in set order,
modelled as `l.dedup`) whose multiplicity is maximal; `none` on an empty
collection, where Python raises `ValueError`.  CPython's set iteration order
is unspecified; no claim below depends on equal-frequency ties. -/
def pyMaxByCount (l : List Nat) : Option Nat :=
  l.dedup.foldl
    (fun acc x =>
      match acc with
      | none => some x
      | some b => if l.count x > l.count b then some x else some b)
    none

/-- `map_hdf(hdf_file)` (lines 630-734): pre-seed defaults, traverse, then
keep as scannables the arrays whose size is the most common array size, and
build the combined overlay `{**values, **arrays, **scannables}`. -/
def mapHdf (f : HFile) : Except String HdfMapS :=
  match seedDefaults f emptyMap with
  | Except.error e => Except.error e
  | Except.ok m1 =>
    let m2 := visitList m1 "" f.children
    match collectSizes m2.datasets m2.arrays with
    | Except.error e => Except.error e
    | Except.ok pairs =>
      let arraySizes := pairs.map (fun t => t.2.2)
      match pyMaxByCount arraySizes with
      | none => Except.error "ValueError: max() arg is an empty sequence"
      | some maxArray =>
        let scannables := (pairs.filter (fun t => t.2.2 = maxArray)).map
          (fun t => (t.1, t.2.1))
        let combined := pyMerge [m2.values, m2.arrays, scannables]
        Except.ok { m2 with scannables := scannables, combined := combined }

/-- `HdfMap2.__init__` (lines 395-410): `_populate` from an empty map (no
default pre-seeding: `_load_defaults` is never called), then
`generate_scannables(most_common_size())`, where `most_common_size`
(lines 478-485) keeps only sizes strictly greater than 1. -/
def hdfMap2Build (f : HFile) : Except String HdfMapS :=
  let m2 := visitList emptyMap "" f.children
  match collectSizes m2.datasets m2.arrays with
  | Except.error e => Except.error e
  | Except.ok pairs =>
    let bigSizes := (pairs.map (fun t => t.2.2)).filter (fun s => s > 1)
    match pyMaxByCount bigSizes with
    | none => Except.error "ValueError: max() arg is an empty sequence"
    | some arraySize =>
      let scannables := (pairs.filter (fun t => t.2.2 = arraySize)).map
        (fun t => (t.1, t.2.1))
      let combined := pyMerge [m2.values, m2.arrays, scannables]
      Except.ok { m2 with scannables := scannables, combined := combined }

/-- The most common element count strictly greater than 1 among the map's
array datasets.  Modelled from the spec: "`scannables`: subset of `arrays`
restricted to entries whose dataset element-count equals the most common
non-unit element-count found among all array datasets in the file". -/
def specModalNonUnitSize (m : HdfMapS) : Option Nat :=
  pyMaxByCount ((m.arrays.filterMap
    (fun kv => (dlookup m.datasets kv.2).map (fun i => i.size))).filter
    (fun s => s > 1))

/-! ## Expression evaluation (`hdf_functions.py` lines 737-818)

Python's `eval` itself is modelled only for single-identifier expressions
(a local-namespace lookup, locals shadowing globals and builtins as in
CPython); every claim below exercises the evaluator only on such
expressions or on expressions rejected before evaluation. -/

/-- A value in the evaluation namespace: a dataset payload (`dataset[()]`),
a string (file names, addresses), or the sentinel `np.array('--')` default. -/
inductive Val where
  | int (i : Int)
  | str (s : String)
  | sentinel
  deriving Repr, DecidableEq

/-- A character that may continue a Python identifier. -/
def isIdentChar (c : Char) : Bool := c.isAlphanum || c = '_'

/-- A character that may start a Python identifier. -/
def isIdentStart (c : Char) : Bool := c.isAlpha || c = '_'

/-- Python keywords (never `ast.Name` nodes). -/
def PY_KEYWORDS : List String :=
  ["False", "None", "True", "and", "as", "assert", "async", "await", "break",
   "class", "continue", "def", "del", "elif", "else", "except", "finally",
   "for", "from", "global", "if", "import", "in", "is", "lambda", "nonlocal",
   "not", "or", "pass", "raise", "return", "try", "while", "with", "yield"]

/-- A string that is a single well-formed Python identifier. -/
def isPyIdentifier (s : String) : Bool :=
  match s.toList with
  | [] => false
  | c :: r => isIdentStart c && r.all isIdentChar && (s ∉ PY_KEYWORDS)

/-- Lexical scan for the maximal identifier-shaped tokens of an expression;
`acc` holds the reversed token in progress.  This models the identifier
(`ast.Name`) extraction of `find_varnames` (lines 737-741). -/
def tokenizeIds (acc : List Char) : List Char → List String
  | [] => if acc.isEmpty then [] else [String.mk acc.reverse]
  | c :: r =>
      if acc.isEmpty then
        if isIdentStart c then tokenizeIds [c] r else tokenizeIds [] r
      else
        if isIdentChar c then tokenizeIds (c :: acc) r
        else String.mk acc.reverse :: tokenizeIds [] r

/-- `find_varnames(expression)`: the expression's identifiers that are not
builtins and not the `np` alias (`GLOBALS_NAMELIST`). -/
def findVarnames (expr : String) : List String :=
  (tokenizeIds [] expr.toList).filter (fun n => n ∉ GLOBALS_NAMELIST)

/-- `check_naughty_eval(eval_str)` (lines 808-818): raise on the first
deny-list entry of `['import', 'os.', 'sys.']` contained in the string. -/
def checkNaughtyEval (s : String) : Except String Unit :=
  if containsSub "import" s then
    Except.error "This operation is not allowed as it contains: \"import\""
  else if containsSub "os." s then
    Except.error "This operation is not allowed as it contains: \"os.\""
  else if containsSub "sys." s then
    Except.error "This operation is not allowed as it contains: \"sys.\""
  else Except.ok ()

/-- `hdf_file[address][()]`: fetch a dataset payload; `KeyError` when the
address is absent, a type error when it names a group. -/
def fetchVal (f : HFile) (addr : String) : Except String Val :=
  match resolvePath f addr with
  | some (HNode.dset _ _ _ v) => Except.ok (Val.int v)
  | some (HNode.grp _ _ _) => Except.error "TypeError: group is not a dataset"
  | none => Except.error "KeyError"

/-- The comprehension `{name: hdf_file[name_address[name]][()] for name in
varnames if name in name_address}` as a pair list (errors propagate). -/
def collectFetch (f : HFile) (nameAddress : SDict String) :
    List String → Except String (List (String × Val))
  | [] => Except.ok []
  | n :: r =>
      match dlookup nameAddress n with
      | some a =>
          match fetchVal f a with
          | Except.ok v =>
              match collectFetch f nameAddress r with
              | Except.ok t => Except.ok ((n, v) :: t)
              | Except.error e => Except.error e
          | Except.error e => Except.error e
      | none => collectFetch f nameAddress r

/-- `defaults = {name: default for name in varnames if name not in
name_address}` (line 763), with the sentinel `np.array('--')`. -/
def nsDefaults (nameAddress : SDict String) (varnames : List String) : SDict Val :=
  dofList ((varnames.filter
    (fun n => (dlookup nameAddress n).isNone)).map (fun n => (n, Val.sentinel)))

/-- `addresses = {'_' + name: name_address[name] for name in varnames if
name in name_address}` (line 764). -/
def nsAddresses (nameAddress : SDict String) (varnames : List String) : SDict Val :=
  dofList (varnames.filterMap
    (fun n => (dlookup nameAddress n).map (fun a => ("_" ++ n, Val.str a))))

/-- The fixed `extras` of lines 766-769: the file's full path and base name. -/
def nsExtras (f : HFile) : SDict Val :=
  [("filepath", Val.str f.filename), ("filename", Val.str (pyBasename f.filename))]

/-- `generate_namespace(hdf_file, name_address, varnames)` (lines 744-770)
with the default sentinel `np.array('--')`: fetched values for resolved
names, the sentinel for unresolved ones, `_name` address aliases, and the
`filepath`/`filename` extras, merged as
`{**defaults, **extras, **addresses, **namespace}`. -/
def generateNamespace (f : HFile) (nameAddress : SDict String)
    (varnames : List String) : Except String (SDict Val) :=
  match collectFetch f nameAddress varnames with
  | Except.error e => Except.error e
  | Except.ok fetched =>
    Except.ok (pyMerge [nsDefaults nameAddress varnames, nsExtras f,
      nsAddresses nameAddress varnames, dofList fetched])

/-- The two identifier-discovery passes of `eval_hdf` (lines 787-788):
registered names occurring as substrings of the expression, then the
expression's own identifiers. -/
def varnamesFor (m : HdfMapS) (expr : String) : List String :=
  (m.combined.map (fun kv => kv.1)).filter (fun n => containsSub n expr)
    ++ findVarnames expr

/-- The namespace `eval_hdf` constructs for an expression (line 789). -/
def namespaceFor (f : HFile) (m : HdfMapS) (expr : String) : Except String (SDict Val) :=
  generateNamespace f m.combined (varnamesFor m expr)

/-- Python `eval(expression, GLOBALS, namespace)`, modelled for expressions
that are a single identifier: the local namespace shadows `GLOBALS` and the
builtins; other expression shapes are out of the model. -/
def pyEval (ns : SDict Val) (expr : String) : Except String Val :=
  if isPyIdentifier expr then
    match dlookup ns expr with
    | some v => Except.ok v
    | none =>
        if expr ∈ GLOBALS_NAMELIST then
          Except.error "unmodelled builtin or global"
        else Except.error "NameError"
  else Except.error "unmodelled expression shape"

/-- `eval_hdf(hdf_file, expression, file_map)` (lines 773-792): the
direct-address shortcut first, then (building the map when none is given)
the deny-list check, identifier discovery, namespace construction and
evaluation. -/
def evalHdf (f : HFile) (fileMap : Option HdfMapS) (expr : String) :
    Except String Val :=
  match resolvePath f expr with
  | some (HNode.dset _ _ _ v) => Except.ok (Val.int v)
  | some (HNode.grp _ _ _) => Except.error "TypeError: group is not a dataset"
  | none =>
    match (match fileMap with
           | some m => Except.ok m
           | none => mapHdf f : Except String HdfMapS) with
    | Except.error e => Except.error e
    | Except.ok m =>
      match checkNaughtyEval expr with
      | Except.error e => Except.error e
      | Except.ok _ =>
        match namespaceFor f m expr with
        | Except.error e => Except.error e
        | Except.ok ns => pyEval ns expr

/-! ## Traversal invariants -/

/-- The structural invariant maintained by the traversal: the four
registration dicts have unique keys; every `values` target and every
`image_data` key is a `datasets` key; and every `datasets` key is either an
`image_data` key or its stored short name is bound in `arrays` or `values`
to some `datasets` key (itself, unless a later dataset reused the name). -/
def GoodMap (m : HdfMapS) : Prop :=
  NoDupKeys m.values ∧ NoDupKeys m.arrays ∧ NoDupKeys m.datasets ∧
  NoDupKeys m.image_data ∧
  (∀ n a, dlookup m.values n = some a → (dlookup m.datasets a).isSome) ∧
  (∀ a, (dlookup m.image_data a).isSome → (dlookup m.datasets a).isSome) ∧
  (∀ a i, dlookup m.datasets a = some i →
    (dlookup m.image_data a).isSome ∨
    ∃ b, (dlookup m.arrays i.name = some b ∨ dlookup m.values i.name = some b) ∧
      (dlookup m.datasets b).isSome)

theorem dlookup_dinsert2 {α : Type} (A : SDict α) (n an : String) (addr : α)
    (k : String) :
    dlookup (dinsert (dinsert A n addr) an addr) k =
      if an = k then some addr else if n = k then some addr else dlookup A k := by
  rw [dlookup_dinsert, dlookup_dinsert]

theorem goodMap_visitDset {m : HdfMapS} (hm : GoodMap m) (address : String)
    (shape : List Nat) (attrs : NodeAttrs) :
    GoodMap (visitDset m address shape attrs) := by
  obtain ⟨hv, ha, hd, hi, hvd, hid, hcov⟩ := hm
  unfold visitDset
  simp only []
  set name := addressName address with hname
  set altname := altnameOf attrs name with haltname
  set info : DsetInfo :=
    { name := name, size := sizeOfShape shape, shape := shape, attrs := attrs }
    with hinfo
  -- facts shared by the three branches
  have hds' : NoDupKeys (dinsert m.datasets address info) :=
    noDupKeys_dinsert hd address info
  have hpres : ∀ b, (dlookup m.datasets b).isSome →
      (dlookup (dinsert m.datasets address info) b).isSome := by
    intro b hb
    exact dlookup_isSome_dinsert _ _ _ _ hb
  have hself : (dlookup (dinsert m.datasets address info) address).isSome := by
    simp [dlookup_dinsert_self]
  have harr2 : dlookup (dinsert (dinsert m.arrays name address) altname address)
      name = some address := by
    rw [dlookup_dinsert2]
    by_cases h1 : altname = name <;> simp [h1]
  have hval2 : dlookup (dinsert (dinsert m.values name address) altname address)
      name = some address := by
    rw [dlookup_dinsert2]
    by_cases h1 : altname = name <;> simp [h1]
  by_cases h3 : shape.length ≥ 3
  · simp only [if_pos h3]
    refine ⟨hv, noDupKeys_dinsert (noDupKeys_dinsert ha name address) altname address,
      hds', noDupKeys_dinsert hi address info, ?_, ?_, ?_⟩
    · intro n a hla
      exact hpres a (hvd n a hla)
    · intro a hla
      rw [dlookup_dinsert] at hla
      by_cases hk : address = a
      · exact hk ▸ hself
      · rw [if_neg hk] at hla
        exact hpres a (hid a hla)
    · intro a i hla
      rw [dlookup_dinsert] at hla
      by_cases hk : address = a
      · subst hk
        left
        simp [dlookup_dinsert_self]
      · rw [if_neg hk] at hla
        rcases hcov a i hla with himg | ⟨b, hb, hbs⟩
        · left
          exact dlookup_isSome_dinsert _ _ _ _ himg
        · right
          rcases hb with hbA | hbV
          · have : ∃ c, dlookup (dinsert (dinsert m.arrays name address)
                altname address) i.name = some c ∧ (c = address ∨ c = b) := by
              rw [dlookup_dinsert2]
              by_cases h1 : altname = i.name
              · exact ⟨address, by simp [h1], Or.inl rfl⟩
              · by_cases h2 : name = i.name
                · exact ⟨address, by simp [h1, h2], Or.inl rfl⟩
                · exact ⟨b, by simp [h1, h2, hbA], Or.inr rfl⟩
            obtain ⟨c, hc, hcb⟩ := this
            refine ⟨c, Or.inl hc, ?_⟩
            rcases hcb with rfl | rfl
            · exact hself
            · exact hpres c hbs
          · refine ⟨b, Or.inr hbV, hpres b hbs⟩
  · by_cases h0 : shape.length > 0
    · simp only [if_neg h3, if_pos h0]
      refine ⟨hv, noDupKeys_dinsert (noDupKeys_dinsert ha name address) altname address,
        hds', hi, ?_, ?_, ?_⟩
      · intro n a hla
        exact hpres a (hvd n a hla)
      · intro a hla
        exact hpres a (hid a hla)
      · intro a i hla
        rw [dlookup_dinsert] at hla
        by_cases hk : address = a
        · subst hk
          rw [if_pos rfl] at hla
          have hieq : info = i := Option.some.inj hla
          right
          refine ⟨address, Or.inl ?_, hself⟩
          rw [← hieq, hinfo]
          exact harr2
        · rw [if_neg hk] at hla
          rcases hcov a i hla with himg | ⟨b, hb, hbs⟩
          · left
            exact himg
          · right
            rcases hb with hbA | hbV
            · have : ∃ c, dlookup (dinsert (dinsert m.arrays name address)
                  altname address) i.name = some c ∧ (c = address ∨ c = b) := by
                rw [dlookup_dinsert2]
                by_cases h1 : altname = i.name
                · exact ⟨address, by simp [h1], Or.inl rfl⟩
                · by_cases h2 : name = i.name
                  · exact ⟨address, by simp [h1, h2], Or.inl rfl⟩
                  · exact ⟨b, by simp [h1, h2, hbA], Or.inr rfl⟩
              obtain ⟨c, hc, hcb⟩ := this
              refine ⟨c, Or.inl hc, ?_⟩
              rcases hcb with rfl | rfl
              · exact hself
              · exact hpres c hbs
            · exact ⟨b, Or.inr hbV, hpres b hbs⟩
    · simp only [if_neg h3, if_neg h0]
      refine ⟨noDupKeys_dinsert (noDupKeys_dinsert hv name address) altname address,
        ha, hds', hi, ?_, ?_, ?_⟩
      · intro n a hla
        rw [dlookup_dinsert2] at hla
        by_cases h1 : altname = n
        · rw [if_pos h1] at hla
          exact (Option.some.inj hla) ▸ hself
        · rw [if_neg h1] at hla
          by_cases h2 : name = n
          · rw [if_pos h2] at hla
            exact (Option.some.inj hla) ▸ hself
          · rw [if_neg h2] at hla
            exact hpres a (hvd n a hla)
      · intro a hla
        exact hpres a (hid a hla)
      · intro a i hla
        rw [dlookup_dinsert] at hla
        by_cases hk : address = a
        · subst hk
          rw [if_pos rfl] at hla
          have hieq : info = i := Option.some.inj hla
          right
          refine ⟨address, Or.inr ?_, hself⟩
          rw [← hieq, hinfo]
          exact hval2
        · rw [if_neg hk] at hla
          rcases hcov a i hla with himg | ⟨b, hb, hbs⟩
          · left
            exact himg
          · right
            rcases hb with hbA | hbV
            · exact ⟨b, Or.inl hbA, hpres b hbs⟩
            · have : ∃ c, dlookup (dinsert (dinsert m.values name address)
                  altname address) i.name = some c ∧ (c = address ∨ c = b) := by
                rw [dlookup_dinsert2]
                by_cases h1 : altname = i.name
                · exact ⟨address, by simp [h1], Or.inl rfl⟩
                · by_cases h2 : name = i.name
                  · exact ⟨address, by simp [h1, h2], Or.inl rfl⟩
                  · exact ⟨b, by simp [h1, h2, hbV], Or.inr rfl⟩
              obtain ⟨c, hc, hcb⟩ := this
              refine ⟨c, Or.inr hc, ?_⟩
              rcases hcb with rfl | rfl
              · exact hself
              · exact hpres c hbs

mutual

theorem goodMap_visitNode (top key : String) :
    ∀ (n : HNode) (m : HdfMapS), GoodMap m → GoodMap (visitNode m top key n)
  | HNode.grp attrs soft children => fun m hm => by
      unfold visitNode
      exact goodMap_visitList (top ++ SEP ++ key) children _ hm
  | HNode.dset shape attrs soft v => fun _m hm => by
      unfold visitNode
      by_cases hs : soft
      · simp [hs]
        exact hm
      · simp [hs]
        exact goodMap_visitDset hm _ shape attrs

theorem goodMap_visitList (top : String) :
    ∀ (cs : List (String × HNode)) (m : HdfMapS), GoodMap m → GoodMap (visitList m top cs)
  | [] => fun _m hm => hm
  | (k, n) :: rest => fun m hm =>
      goodMap_visitList top rest _ (goodMap_visitNode top k n m hm)

end

theorem goodMap_emptyMap : GoodMap emptyMap := by
  refine ⟨?_, ?_, ?_, ?_, ?_, ?_, ?_⟩ <;>
    simp [emptyMap, NoDupKeys, dkeys, dlookup]

theorem goodMap_seedArrays (ar : SDict String) (h : NoDupKeys ar) :
    GoodMap { emptyMap with arrays := ar } := by
  refine ⟨?_, h, ?_, ?_, ?_, ?_, ?_⟩ <;>
    simp [emptyMap, NoDupKeys, dkeys, dlookup]

theorem goodMap_seedDefaults {f : HFile} {m1 : HdfMapS}
    (h : seedDefaults f emptyMap = Except.ok m1) : GoodMap m1 := by
  unfold seedDefaults at h
  cases hn : getNexusAxes f with
  | fatal e => rw [hn] at h; exact absurd h (by simp)
  | keyErr =>
      rw [hn] at h
      cases h
      exact goodMap_emptyMap
  | found an sn =>
      rw [hn] at h
      simp only [] at h
      have hnd : NoDupKeys emptyMap.arrays := by simp [emptyMap, NoDupKeys, dkeys]
      by_cases h1 : (resolvePath f an).isSome <;>
        by_cases h2 : (resolvePath f sn).isSome <;>
        simp only [h1, h2, if_true, if_false] at h <;>
        cases h
      · exact goodMap_seedArrays _ (noDupKeys_dinsert (noDupKeys_dinsert hnd _ _) _ _)
      · exact goodMap_seedArrays _ (noDupKeys_dinsert hnd _ _)
      · exact goodMap_seedArrays _ (noDupKeys_dinsert hnd _ _)
      · exact goodMap_emptyMap

/-! ## Specification lemmas for the post-pass -/

theorem collectSizes_ok_proj {ds : SDict DsetInfo} :
    ∀ {l : List (String × String)} {pairs},
      collectSizes ds l = Except.ok pairs →
      pairs.map (fun t => (t.1, t.2.1)) = l := by
  intro l
  induction l with
  | nil =>
      intro pairs h
      simp only [collectSizes] at h
      cases h
      simp
  | cons kv r ih =>
      intro pairs h
      obtain ⟨k, a⟩ := kv
      simp only [collectSizes] at h
      cases hl : dlookup ds a with
      | none => rw [hl] at h; exact absurd h (by simp)
      | some i =>
          rw [hl] at h
          cases hr : collectSizes ds r with
          | error e => rw [hr] at h; exact absurd h (by simp)
          | ok t =>
              rw [hr] at h
              cases h
              simp [ih hr]

theorem collectSizes_ok_size {ds : SDict DsetInfo} :
    ∀ {l : List (String × String)} {pairs},
      collectSizes ds l = Except.ok pairs →
      ∀ t ∈ pairs, ∃ i, dlookup ds t.2.1 = some i ∧ i.size = t.2.2 := by
  intro l
  induction l with
  | nil =>
      intro pairs h t ht
      simp only [collectSizes] at h
      cases h
      simp at ht
  | cons kv r ih =>
      intro pairs h t ht
      obtain ⟨k, a⟩ := kv
      simp only [collectSizes] at h
      cases hl : dlookup ds a with
      | none => rw [hl] at h; exact absurd h (by simp)
      | some i =>
          rw [hl] at h
          cases hr : collectSizes ds r with
          | error e => rw [hr] at h; exact absurd h (by simp)
          | ok tl =>
              rw [hr] at h
              cases h
              rcases List.mem_cons.mp ht with rfl | hmem
              · exact ⟨i, hl, rfl⟩
              · exact ih hr t hmem

theorem collectSizes_ok_lookup {ds : SDict DsetInfo} :
    ∀ {l : List (String × String)} {pairs},
      collectSizes ds l = Except.ok pairs →
      ∀ kv ∈ l, (dlookup ds kv.2).isSome := by
  intro l
  induction l with
  | nil => intro pairs _ kv h; simp at h
  | cons kv0 r ih =>
      intro pairs h kv hm
      obtain ⟨k, a⟩ := kv0
      simp only [collectSizes] at h
      cases hl : dlookup ds a with
      | none => rw [hl] at h; exact absurd h (by simp)
      | some i =>
          rw [hl] at h
          cases hr : collectSizes ds r with
          | error e => rw [hr] at h; exact absurd h (by simp)
          | ok tl =>
              rcases List.mem_cons.mp hm with rfl | hmem
              · simp [hl]
              · exact ih hr kv hmem

/-- Successful `map_hdf` unpacked into its stages. -/
theorem mapHdf_ok_spec {f : HFile} {m : HdfMapS} (h : mapHdf f = Except.ok m) :
    ∃ m1 pairs maxArray,
      seedDefaults f emptyMap = Except.ok m1 ∧
      collectSizes (visitList m1 "" f.children).datasets
        (visitList m1 "" f.children).arrays = Except.ok pairs ∧
      pyMaxByCount (pairs.map (fun t => t.2.2)) = some maxArray ∧
      m = { visitList m1 "" f.children with
            scannables := (pairs.filter (fun t => t.2.2 = maxArray)).map
              (fun t => (t.1, t.2.1)),
            combined := pyMerge [(visitList m1 "" f.children).values,
              (visitList m1 "" f.children).arrays,
              (pairs.filter (fun t => t.2.2 = maxArray)).map
                (fun t => (t.1, t.2.1))] } := by
  unfold mapHdf at h
  cases hs : seedDefaults f emptyMap with
  | error e => rw [hs] at h; exact absurd h (by simp)
  | ok m1 =>
      rw [hs] at h
      simp only [] at h
      cases hc : collectSizes (visitList m1 "" f.children).datasets
          (visitList m1 "" f.children).arrays with
      | error e => rw [hc] at h; exact absurd h (by simp)
      | ok pairs =>
          rw [hc] at h
          simp only [] at h
          cases hp : pyMaxByCount (pairs.map (fun t => t.2.2)) with
          | none => rw [hp] at h; exact absurd h (by simp)
          | some maxArray =>
              rw [hp] at h
              simp only [] at h
              cases h
              exact ⟨m1, pairs, maxArray, rfl, hc, hp, rfl⟩

/-- Successful `HdfMap2` construction unpacked into its stages. -/
theorem hdfMap2Build_ok_spec {f : HFile} {m : HdfMapS}
    (h : hdfMap2Build f = Except.ok m) :
    ∃ pairs arraySize,
      collectSizes (visitList emptyMap "" f.children).datasets
        (visitList emptyMap "" f.children).arrays = Except.ok pairs ∧
      pyMaxByCount ((pairs.map (fun t => t.2.2)).filter (fun s => s > 1))
        = some arraySize ∧
      m = { visitList emptyMap "" f.children with
            scannables := (pairs.filter (fun t => t.2.2 = arraySize)).map
              (fun t => (t.1, t.2.1)),
            combined := pyMerge [(visitList emptyMap "" f.children).values,
              (visitList emptyMap "" f.children).arrays,
              (pairs.filter (fun t => t.2.2 = arraySize)).map
                (fun t => (t.1, t.2.1))] } := by
  unfold hdfMap2Build at h
  simp only [] at h
  cases hc : collectSizes (visitList emptyMap "" f.children).datasets
      (visitList emptyMap "" f.children).arrays with
  | error e => rw [hc] at h; exact absurd h (by simp)
  | ok pairs =>
      rw [hc] at h
      simp only [] at h
      cases hp : pyMaxByCount ((pairs.map (fun t => t.2.2)).filter (fun s => s > 1)) with
      | none => rw [hp] at h; exact absurd h (by simp)
      | some arraySize =>
          rw [hp] at h
          simp only [] at h
          cases h
          exact ⟨pairs, arraySize, rfl, hp, rfl⟩

/-- `pyMaxByCount` of a list whose sizes all fail a filter is `none` when the
filtered list is empty. -/
theorem pyMaxByCount_nil : pyMaxByCount [] = none := rfl

/-! ## Groups characterization: the last group registration wins -/

mutual

/-- The attributes of the last group registered at `addr` during the
traversal of one child entry (depth-first, self before children). -/
def findGrpN (top key addr : String) : HNode → Option NodeAttrs
  | HNode.dset _ _ _ _ => none
  | HNode.grp attrs _ children =>
      match findGrpL (top ++ SEP ++ key) addr children with
      | some r => some r
      | none => if top ++ SEP ++ key = addr then some attrs else none

/-- The attributes of the last group registered at `addr` during the
traversal of a child list (later siblings override earlier ones). -/
def findGrpL (top addr : String) : List (String × HNode) → Option NodeAttrs
  | [] => none
  | (k, n) :: rest =>
      match findGrpL top addr rest with
      | some r => some r
      | none => findGrpN top k addr n

end

theorem visitDset_groups (m : HdfMapS) (address : String) (shape : List Nat)
    (attrs : NodeAttrs) : (visitDset m address shape attrs).groups = m.groups := by
  unfold visitDset
  by_cases h3 : shape.length ≥ 3
  · simp [h3]
  · by_cases h0 : shape.length > 0 <;> simp [h3, h0]

theorem visitDset_classes (m : HdfMapS) (address : String) (shape : List Nat)
    (attrs : NodeAttrs) : (visitDset m address shape attrs).classes = m.classes := by
  unfold visitDset
  by_cases h3 : shape.length ≥ 3
  · simp [h3]
  · by_cases h0 : shape.length > 0 <;> simp [h3, h0]

mutual

theorem groups_visitNode (top key addr : String) :
    ∀ (n : HNode) (m : HdfMapS),
      dlookup (visitNode m top key n).groups addr =
        match findGrpN top key addr n with
        | some attrs => some (pyClassTag attrs, addressName addr)
        | none => dlookup m.groups addr
  | HNode.dset shape attrs soft v => fun m => by
      unfold visitNode findGrpN
      by_cases hs : soft
      · simp [hs]
      · simp [hs, visitDset_groups]
  | HNode.grp attrs soft children => fun m => by
      unfold visitNode findGrpN
      rw [groups_visitList (top ++ SEP ++ key) addr children]
      cases hfl : findGrpL (top ++ SEP ++ key) addr children with
      | some r => simp
      | none =>
          simp only []
          rw [dlookup_dinsert]
          by_cases hk : top ++ SEP ++ key = addr
          · simp [hk]
          · simp [hk]

theorem groups_visitList (top addr : String) :
    ∀ (cs : List (String × HNode)) (m : HdfMapS),
      dlookup (visitList m top cs).groups addr =
        match findGrpL top addr cs with
        | some attrs => some (pyClassTag attrs, addressName addr)
        | none => dlookup m.groups addr
  | [] => fun m => rfl
  | (k, n) :: rest => fun m => by
      unfold visitList findGrpL
      rw [groups_visitList top addr rest]
      cases hfl : findGrpL top addr rest with
      | some r => simp
      | none =>
          simp only []
          exact groups_visitNode top k addr n m

end

/-! ## No qualifying array dataset (for the empty-`arrays` failure mode) -/

mutual

/-- Whether a node contains a non-soft-linked dataset with at least one
dimension (i.e. a dataset the traversal would register in `arrays`). -/
def hasArrDsetN : HNode → Bool
  | HNode.dset shape _ soft _ => !soft && decide (shape.length > 0)
  | HNode.grp _ _ children => hasArrDsetL children

/-- Whether a child list contains a qualifying array dataset. -/
def hasArrDsetL : List (String × HNode) → Bool
  | [] => false
  | (_, n) :: rest => hasArrDsetN n || hasArrDsetL rest

end

mutual

theorem arrays_visitNode (top key : String) :
    ∀ (n : HNode) (m : HdfMapS), hasArrDsetN n = false →
      (visitNode m top key n).arrays = m.arrays
  | HNode.dset shape attrs soft v => fun m h => by
      unfold hasArrDsetN at h
      unfold visitNode
      by_cases hs : soft
      · simp [hs]
      · simp [hs] at h ⊢
        unfold visitDset
        have h0 : ¬ shape.length > 0 := by simpa [hs] using h
        have h3 : ¬ shape.length ≥ 3 := fun hc => h0 (by omega)
        simp [h3, h0]
  | HNode.grp attrs soft children => fun m h => by
      unfold hasArrDsetN at h
      unfold visitNode
      exact arrays_visitList (top ++ SEP ++ key) children _ h

theorem arrays_visitList (top : String) :
    ∀ (cs : List (String × HNode)) (m : HdfMapS), hasArrDsetL cs = false →
      (visitList m top cs).arrays = m.arrays
  | [] => fun m _ => rfl
  | (k, n) :: rest => fun m h => by
      unfold hasArrDsetL at h
      simp only [Bool.or_eq_false_iff] at h
      unfold visitList
      rw [arrays_visitList top rest _ h.2, arrays_visitNode top k n m h.1]

end

/-! ## Generic lookup lemmas -/

theorem dlookup_none_of_not_mem {α : Type} {l : SDict α} {k : String}
    (h : ∀ v, (k, v) ∉ l) : dlookup l k = none := by
  cases hl : dlookup l k with
  | none => rfl
  | some w => exact absurd (dlookup_mem hl) (h w)

theorem dlookup_of_all {α : Type} {l : SDict α} {k : String} {v : α}
    (hex : (k, v) ∈ l) (hall : ∀ w, (k, w) ∈ l → w = v) :
    dlookup l k = some v := by
  induction l with
  | nil => simp at hex
  | cons kv r ih =>
      obtain ⟨k', v'⟩ := kv
      by_cases hk : k' = k
      · subst hk
        have : v' = v := hall v' (List.mem_cons_self _ _)
        simp [dlookup, this]
      · simp only [dlookup, if_neg hk]
        rcases List.mem_cons.mp hex with he | hmem
        · cases he; exact absurd rfl hk
        · exact ih hmem (fun w hw => hall w (List.mem_cons_of_mem _ hw))

theorem dlookup_pyMerge3 {α : Type} (d1 d2 d3 : SDict α) (k : String) :
    dlookup (pyMerge [d1, d2, d3]) k =
      (dlookup d3.reverse k).orElse (fun _ =>
        (dlookup d2.reverse k).orElse (fun _ => dlookup d1.reverse k)) := by
  unfold pyMerge
  simp only [List.foldl_cons, List.foldl_nil]
  rw [dlookup_dmerge, dlookup_dmerge, dlookup_dmerge]
  cases dlookup d3.reverse k <;> cases dlookup d2.reverse k <;>
    cases dlookup d1.reverse k <;> simp [dlookup]

theorem dlookup_pyMerge4 {α : Type} (d1 d2 d3 d4 : SDict α) (k : String) :
    dlookup (pyMerge [d1, d2, d3, d4]) k =
      (dlookup d4.reverse k).orElse (fun _ =>
        (dlookup d3.reverse k).orElse (fun _ =>
          (dlookup d2.reverse k).orElse (fun _ => dlookup d1.reverse k))) := by
  unfold pyMerge
  simp only [List.foldl_cons, List.foldl_nil]
  rw [dlookup_dmerge, dlookup_dmerge, dlookup_dmerge, dlookup_dmerge]
  cases dlookup d4.reverse k <;> cases dlookup d3.reverse k <;>
    cases dlookup d2.reverse k <;> cases dlookup d1.reverse k <;> simp [dlookup]

theorem pyMaxByCount_mem : ∀ {l : List Nat} {v : Nat},
    pyMaxByCount l = some v → v ∈ l := by
  have aux : ∀ (d : List Nat) (count : Nat → Nat) (acc : Option Nat) (v : Nat),
      d.foldl (fun acc x =>
        match acc with
        | none => some x
        | some b => if count x > count b then some x else some b) acc = some v →
      acc = some v ∨ v ∈ d := by
    intro d count
    induction d with
    | nil => intro acc v h; exact Or.inl h
    | cons x t ih =>
        intro acc v h
        simp only [List.foldl_cons] at h
        rcases ih _ v h with hstep | hmem
        · cases acc with
          | none =>
              simp only [] at hstep
              cases hstep
              exact Or.inr (List.mem_cons_self _ _)
          | some b =>
              simp only [] at hstep
              by_cases hc : count x > count b
              · rw [if_pos hc] at hstep
                cases hstep
                exact Or.inr (List.mem_cons_self _ _)
              · rw [if_neg hc] at hstep
                exact Or.inl hstep
        · exact Or.inr (List.mem_cons_of_mem _ hmem)
  intro l v h
  unfold pyMaxByCount at h
  rcases aux l.dedup (fun x => l.count x) none v h with hn | hm
  · exact absurd hn (by simp)
  · exact List.mem_dedup.mp hm

/-- The element sizes of the map's array entries, recomputed from the final
map (`[hdf_map.datasets[v][1] for k, v in hdf_map.arrays.items()]`). -/
def arraySizesOf (m : HdfMapS) : List Nat :=
  m.arrays.filterMap (fun kv => (dlookup m.datasets kv.2).map (fun i => i.size))

theorem collectSizes_ok_sizes {ds : SDict DsetInfo} :
    ∀ {l : List (String × String)} {pairs},
      collectSizes ds l = Except.ok pairs →
      l.filterMap (fun kv => (dlookup ds kv.2).map (fun i => i.size))
        = pairs.map (fun t => t.2.2) := by
  intro l
  induction l with
  | nil =>
      intro pairs h
      simp only [collectSizes] at h
      cases h
      simp
  | cons kv r ih =>
      intro pairs h
      obtain ⟨k, a⟩ := kv
      simp only [collectSizes] at h
      cases hl : dlookup ds a with
      | none => rw [hl] at h; exact absurd h (by simp)
      | some i =>
          rw [hl] at h
          cases hr : collectSizes ds r with
          | error e => rw [hr] at h; exact absurd h (by simp)
          | ok t =>
              rw [hr] at h
              cases h
              simp [List.filterMap_cons, hl, ih hr]

/-! ## collectFetch specification -/

theorem collectFetch_mem {f : HFile} {na : SDict String} :
    ∀ {vns : List String} {fetched}, collectFetch f na vns = Except.ok fetched →
      ∀ n a w, n ∈ vns → dlookup na n = some a → fetchVal f a = Except.ok w →
        (n, w) ∈ fetched := by
  intro vns
  induction vns with
  | nil => intro fetched h n a w hmem; simp at hmem
  | cons n0 r ih =>
      intro fetched h n a w hmem hna hf
      simp only [collectFetch] at h
      rcases List.mem_cons.mp hmem with rfl | hmem'
      · rw [hna] at h
        simp only [] at h
        rw [hf] at h
        simp only [] at h
        cases hr : collectFetch f na r with
        | error e => rw [hr] at h; exact absurd h (by simp)
        | ok t =>
            rw [hr] at h
            simp only [] at h
            cases h
            exact List.mem_cons_self _ _
      · cases hna0 : dlookup na n0 with
        | none =>
            rw [hna0] at h
            simp only [] at h
            exact ih h n a w hmem' hna hf
        | some a0 =>
            rw [hna0] at h
            simp only [] at h
            cases hf0 : fetchVal f a0 with
            | error e => rw [hf0] at h; exact absurd h (by simp)
            | ok w0 =>
                rw [hf0] at h
                simp only [] at h
                cases hr : collectFetch f na r with
                | error e => rw [hr] at h; exact absurd h (by simp)
                | ok t =>
                    rw [hr] at h
                    simp only [] at h
                    cases h
                    exact List.mem_cons_of_mem _ (ih hr n a w hmem' hna hf)

theorem collectFetch_mem_inv {f : HFile} {na : SDict String} :
    ∀ {vns : List String} {fetched}, collectFetch f na vns = Except.ok fetched →
      ∀ n w, (n, w) ∈ fetched →
        n ∈ vns ∧ ∃ a, dlookup na n = some a ∧ fetchVal f a = Except.ok w := by
  intro vns
  induction vns with
  | nil =>
      intro fetched h n w hmem
      simp only [collectFetch] at h
      cases h
      simp at hmem
  | cons n0 r ih =>
      intro fetched h n w hmem
      simp only [collectFetch] at h
      cases hna0 : dlookup na n0 with
      | none =>
          rw [hna0] at h
          simp only [] at h
          obtain ⟨hm, rest⟩ := ih h n w hmem
          exact ⟨List.mem_cons_of_mem _ hm, rest⟩
      | some a0 =>
          rw [hna0] at h
          simp only [] at h
          cases hf0 : fetchVal f a0 with
          | error e => rw [hf0] at h; exact absurd h (by simp)
          | ok w0 =>
              rw [hf0] at h
              simp only [] at h
              cases hr : collectFetch f na r with
              | error e => rw [hr] at h; exact absurd h (by simp)
              | ok t =>
                  rw [hr] at h
                  simp only [] at h
                  cases h
                  rcases List.mem_cons.mp hmem with he | hmem'
                  · cases he
                    exact ⟨List.mem_cons_self _ _, a0, hna0, hf0⟩
                  · obtain ⟨hm, rest⟩ := ih hr n w hmem'
                    exact ⟨List.mem_cons_of_mem _ hm, rest⟩

theorem collectFetch_ok_of_all {f : HFile} {na : SDict String}
    (h : na.all (fun kv =>
      match resolvePath f kv.2 with
      | some (HNode.dset _ _ _ _) => true
      | _ => false) = true) :
    ∀ (vns : List String), ∃ fetched, collectFetch f na vns = Except.ok fetched := by
  intro vns
  induction vns with
  | nil => exact ⟨[], rfl⟩
  | cons n0 r ih =>
      obtain ⟨t, ht⟩ := ih
      cases hna0 : dlookup na n0 with
      | none => exact ⟨t, by simp only [collectFetch, hna0]; exact ht⟩
      | some a0 =>
          have hmem := dlookup_mem hna0
          have := (List.all_eq_true.mp h) _ hmem
          simp only [] at this
          cases hres : resolvePath f a0 with
          | none => rw [hres] at this; simp at this
          | some node =>
              cases node with
              | grp attrs soft children => rw [hres] at this; simp at this
              | dset shape attrs soft v =>
                  refine ⟨(n0, Val.int v) :: t, ?_⟩
                  simp only [collectFetch, hna0]
                  have hf : fetchVal f a0 = Except.ok (Val.int v) := by
                    unfold fetchVal
                    rw [hres]
                  rw [hf, ht]

/-! ## Namespace lookup lemmas -/

theorem generateNamespace_ok_spec {f : HFile} {na : SDict String}
    {vns : List String} {ns : SDict Val}
    (h : generateNamespace f na vns = Except.ok ns) :
    ∃ fetched, collectFetch f na vns = Except.ok fetched ∧
      ns = pyMerge [nsDefaults na vns, nsExtras f, nsAddresses na vns,
        dofList fetched] := by
  unfold generateNamespace at h
  cases hc : collectFetch f na vns with
  | error e => rw [hc] at h; exact absurd h (by simp)
  | ok fetched =>
      rw [hc] at h
      simp only [] at h
      cases h
      exact ⟨fetched, rfl, rfl⟩

theorem dlookup_dofList_rev {α : Type} (l : List (String × α)) (k : String) :
    dlookup (dofList l).reverse k = dlookup l.reverse k := by
  rw [dlookup_reverse_of_noDup (noDupKeys_dofList l), dlookup_dofList]

theorem underscore_toList (r : String) : ("_" ++ r).toList = '_' :: r.toList := by
  show ("_" ++ r).data = '_' :: r.data
  rw [String.data_append]
  rfl

theorem underscore_inj {r n : String} (h : "_" ++ r = "_" ++ n) : r = n := by
  have h2 : ("_" ++ r).toList = ("_" ++ n).toList := by rw [h]
  rw [underscore_toList, underscore_toList] at h2
  have h3 : r.data = n.data := List.cons.inj h2 |>.2
  exact congrArg String.mk h3

theorem underscore_ne_of_head {r s : String} (hs : s.toList.head? ≠ some '_') :
    "_" ++ r ≠ s := by
  intro he
  apply hs
  rw [← he, underscore_toList]
  rfl

/-- Lookup in the reversed sentinel-defaults layer. -/
theorem nsDefaults_rev_some {na : SDict String} {vns : List String} {n : String}
    (hmem : n ∈ vns) (hnone : dlookup na n = none) :
    dlookup (nsDefaults na vns).reverse n = some Val.sentinel := by
  unfold nsDefaults
  rw [dlookup_dofList_rev]
  apply dlookup_of_all
  · rw [List.mem_reverse]
    exact List.mem_map.mpr ⟨n, List.mem_filter.mpr ⟨hmem, by simp [hnone]⟩, rfl⟩
  · intro w hw
    rw [List.mem_reverse] at hw
    obtain ⟨r, _, hr⟩ := List.mem_map.mp hw
    exact (Prod.mk.injEq _ _ _ _ ▸ hr).2.symm ▸ rfl

theorem nsDefaults_rev_none {na : SDict String} {vns : List String} {n : String}
    (h : ¬(n ∈ vns ∧ dlookup na n = none)) :
    dlookup (nsDefaults na vns).reverse n = none := by
  unfold nsDefaults
  rw [dlookup_dofList_rev]
  apply dlookup_none_of_not_mem
  intro v hv
  rw [List.mem_reverse] at hv
  obtain ⟨r, hrf, hr⟩ := List.mem_map.mp hv
  obtain ⟨hrv, hrn⟩ := List.mem_filter.mp hrf
  have : r = n := (Prod.mk.injEq _ _ _ _ ▸ hr).1
  subst this
  exact h ⟨hrv, by simpa using hrn⟩

theorem nsExtras_rev_filename (f : HFile) :
    dlookup (nsExtras f).reverse "filename" = some (Val.str (pyBasename f.filename)) := rfl

theorem nsExtras_rev_filepath (f : HFile) :
    dlookup (nsExtras f).reverse "filepath" = some (Val.str f.filename) := rfl

theorem nsExtras_rev_other {f : HFile} {n : String}
    (h1 : n ≠ "filename") (h2 : n ≠ "filepath") :
    dlookup (nsExtras f).reverse n = none := by
  unfold nsExtras
  simp [dlookup, Ne.symm h1, Ne.symm h2]

/-- Lookup in the reversed address-alias layer at an alias key. -/
theorem nsAddresses_rev_alias {na : SDict String} {vns : List String}
    {n a : String} (hmem : n ∈ vns) (hna : dlookup na n = some a) :
    dlookup (nsAddresses na vns).reverse ("_" ++ n) = some (Val.str a) := by
  unfold nsAddresses
  rw [dlookup_dofList_rev]
  apply dlookup_of_all
  · rw [List.mem_reverse]
    refine List.mem_filterMap.mpr ⟨n, hmem, ?_⟩
    rw [hna]
    rfl
  · intro w hw
    rw [List.mem_reverse] at hw
    obtain ⟨r, _, hr⟩ := List.mem_filterMap.mp hw
    cases har : dlookup na r with
    | none => rw [har] at hr; exact Option.noConfusion hr
    | some ar =>
        rw [har] at hr
        simp only [Option.map_some', Option.some.injEq, Prod.mk.injEq] at hr
        obtain ⟨hk, hv⟩ := hr
        have : r = n := underscore_inj hk
        subst this
        rw [hna] at har
        cases har
        exact hv.symm

theorem nsAddresses_rev_none_head {na : SDict String} {vns : List String}
    {n : String} (h : n.toList.head? ≠ some '_') :
    dlookup (nsAddresses na vns).reverse n = none := by
  unfold nsAddresses
  rw [dlookup_dofList_rev]
  apply dlookup_none_of_not_mem
  intro v hv
  rw [List.mem_reverse] at hv
  obtain ⟨r, _, hr⟩ := List.mem_filterMap.mp hv
  cases har : dlookup na r with
  | none => rw [har] at hr; exact Option.noConfusion hr
  | some ar =>
      rw [har] at hr
      simp only [Option.map_some', Option.some.injEq, Prod.mk.injEq] at hr
      exact underscore_ne_of_head h hr.1

theorem nsAddresses_rev_none_shadow {na : SDict String} {vns : List String}
    {n : String} (h : ∀ r, r ∈ vns → (dlookup na r).isSome → "_" ++ r ≠ n) :
    dlookup (nsAddresses na vns).reverse n = none := by
  unfold nsAddresses
  rw [dlookup_dofList_rev]
  apply dlookup_none_of_not_mem
  intro v hv
  rw [List.mem_reverse] at hv
  obtain ⟨r, hrm, hr⟩ := List.mem_filterMap.mp hv
  cases har : dlookup na r with
  | none => rw [har] at hr; exact Option.noConfusion hr
  | some ar =>
      rw [har] at hr
      simp only [Option.map_some', Option.some.injEq, Prod.mk.injEq] at hr
      exact h r hrm (by simp [har]) hr.1

/-- Lookup in the reversed fetched-values layer at a resolved name. -/
theorem fetched_rev_some {f : HFile} {na : SDict String} {vns : List String}
    {fetched : List (String × Val)} {n a : String} {w : Val}
    (hcf : collectFetch f na vns = Except.ok fetched)
    (hmem : n ∈ vns) (hna : dlookup na n = some a)
    (hf : fetchVal f a = Except.ok w) :
    dlookup (dofList fetched).reverse n = some w := by
  rw [dlookup_dofList_rev]
  apply dlookup_of_all
  · rw [List.mem_reverse]
    exact collectFetch_mem hcf n a w hmem hna hf
  · intro w' hw
    rw [List.mem_reverse] at hw
    obtain ⟨_, a', hna', hf'⟩ := collectFetch_mem_inv hcf n w' hw
    rw [hna] at hna'
    cases hna'
    rw [hf] at hf'
    exact (Except.ok.inj hf').symm

theorem fetched_rev_none {f : HFile} {na : SDict String} {vns : List String}
    {fetched : List (String × Val)} {n : String}
    (hcf : collectFetch f na vns = Except.ok fetched)
    (h : ¬(n ∈ vns ∧ (dlookup na n).isSome)) :
    dlookup (dofList fetched).reverse n = none := by
  rw [dlookup_dofList_rev]
  apply dlookup_none_of_not_mem
  intro v hv
  rw [List.mem_reverse] at hv
  obtain ⟨hmem, a, hna, _⟩ := collectFetch_mem_inv hcf n v hv
  exact h ⟨hmem, by simp [hna]⟩

theorem ns_lookup_resolved {f : HFile} {na : SDict String} {vns : List String}
    {ns : SDict Val} {n a : String} {w : Val}
    (h : generateNamespace f na vns = Except.ok ns)
    (hmem : n ∈ vns) (hna : dlookup na n = some a)
    (hf : fetchVal f a = Except.ok w) :
    dlookup ns n = some w := by
  obtain ⟨fetched, hcf, rfl⟩ := generateNamespace_ok_spec h
  rw [dlookup_pyMerge4, fetched_rev_some hcf hmem hna hf]
  rfl

theorem ns_lookup_default {f : HFile} {na : SDict String} {vns : List String}
    {ns : SDict Val} {n : String}
    (h : generateNamespace f na vns = Except.ok ns)
    (hmem : n ∈ vns) (hnone : dlookup na n = none)
    (hne1 : n ≠ "filename") (hne2 : n ≠ "filepath")
    (hsh : ∀ r, r ∈ vns → (dlookup na r).isSome → "_" ++ r ≠ n) :
    dlookup ns n = some Val.sentinel := by
  obtain ⟨fetched, hcf, rfl⟩ := generateNamespace_ok_spec h
  rw [dlookup_pyMerge4,
      fetched_rev_none hcf (by rintro ⟨_, hs⟩; rw [hnone] at hs; simp at hs),
      nsAddresses_rev_none_shadow hsh,
      nsExtras_rev_other hne1 hne2,
      nsDefaults_rev_some hmem hnone]
  rfl

theorem ns_lookup_filename {f : HFile} {na : SDict String} {vns : List String}
    {ns : SDict Val}
    (h : generateNamespace f na vns = Except.ok ns)
    (hres : ¬("filename" ∈ vns ∧ (dlookup na "filename").isSome = true)) :
    dlookup ns "filename" = some (Val.str (pyBasename f.filename)) := by
  obtain ⟨fetched, hcf, rfl⟩ := generateNamespace_ok_spec h
  rw [dlookup_pyMerge4, fetched_rev_none hcf hres,
      nsAddresses_rev_none_head (by decide), nsExtras_rev_filename]
  rfl

theorem ns_lookup_filepath {f : HFile} {na : SDict String} {vns : List String}
    {ns : SDict Val}
    (h : generateNamespace f na vns = Except.ok ns)
    (hres : ¬("filepath" ∈ vns ∧ (dlookup na "filepath").isSome = true)) :
    dlookup ns "filepath" = some (Val.str f.filename) := by
  obtain ⟨fetched, hcf, rfl⟩ := generateNamespace_ok_spec h
  rw [dlookup_pyMerge4, fetched_rev_none hcf hres,
      nsAddresses_rev_none_head (by decide), nsExtras_rev_filepath]
  rfl

theorem ns_lookup_alias {f : HFile} {na : SDict String} {vns : List String}
    {ns : SDict Val} {n a : String}
    (h : generateNamespace f na vns = Except.ok ns)
    (hmem : n ∈ vns) (hna : dlookup na n = some a)
    (hsh : ¬("_" ++ n ∈ vns ∧ (dlookup na ("_" ++ n)).isSome = true)) :
    dlookup ns ("_" ++ n) = some (Val.str a) := by
  obtain ⟨fetched, hcf, rfl⟩ := generateNamespace_ok_spec h
  rw [dlookup_pyMerge4, fetched_rev_none hcf hsh,
      nsAddresses_rev_alias hmem hna]
  rfl

deriving instance DecidableEq for Except

/-! # Claims -/

/-! ## C4 -/

/-- C4 (code_bug): the spec says the short name of an address whose last
segment is the literal `"value"` is the parent path's segment, but
`address_name` returns the last segment unchanged: both arms of its
conditional evaluate `address.split(SEP)[-1]` (`hdf_functions.py` line 54),
so `/entry1/motor/value` yields `"value"`, not `"motor"`.  The conditional
is a no-op, which shows the parent-segment substitution was the intent. -/
theorem c4_value_segment_not_parent :
    addressName "/entry1/motor/value" = "value" ∧ "value" ≠ "motor" := by
  constructor
  · decide
  · decide

/-! ## C3 -/

/-- The file for the C3 counterexample: a top-level dataset whose link name
contains `"import "` (legal in HDF5, where only `/` and `.` are reserved),
plus an ordinary array so that map building succeeds. -/
def c3file : HFile :=
  { filename := "/tmp/c3.nxs", attrs := noAttrs,
    children :=
      [("e", HNode.grp noAttrs false [("y", HNode.dset [3] noAttrs false 1)]),
       ("import x", HNode.dset [] noAttrs false 7)] }

/-- C3 (counterexample): an expression containing `"import "` that is itself
an address present in the file is not rejected — the direct-address
shortcut of `eval_hdf` (line 782) runs before `check_naughty_eval`
(line 786) and returns the dataset's value (here with the file's own built
map). -/
theorem c3_counterexample :
    containsSub "import " "import x" = true ∧
    (match mapHdf c3file with
     | Except.ok m => evalHdf c3file (some m) "import x" == Except.ok (Val.int 7)
     | Except.error _ => false) = true := by
  constructor
  · decide
  · decide

theorem containsSub_import_of_import_space {s : String}
    (h : containsSub "import " s = true) : containsSub "import" s = true := by
  have he : ("import ").toList = ("import").toList ++ [' '] := by decide
  unfold containsSub at h ⊢
  rw [he] at h
  exact containsSubL_append_left h

/-- C3 (amended): an expression containing the substring `"import "` that is
not itself an address present in the file is rejected by `eval_hdf` with the
deny-list exception before any evaluation attempt; when the expression is an
address present in the file, the dataset value is returned (or a type error
raised for a group) without the safety check. -/
theorem c3_import_rejected_when_not_address (f : HFile) (m : HdfMapS)
    (expr : String) (himp : containsSub "import " expr = true)
    (hnotaddr : (resolvePath f expr).isNone = true) :
    evalHdf f (some m) expr =
      Except.error "This operation is not allowed as it contains: \"import\"" := by
  unfold evalHdf
  cases hr : resolvePath f expr with
  | some n => rw [hr] at hnotaddr; simp at hnotaddr
  | none =>
      simp only []
      unfold checkNaughtyEval
      rw [containsSub_import_of_import_space himp]
      simp

/-- C3 witness: the amended theorem applied at a concrete file, map and
expression. -/
theorem c3_witness :
    containsSub "import " "import os" = true ∧
    (resolvePath c3file "import os").isNone = true ∧
    evalHdf c3file (some emptyMap) "import os" =
      Except.error "This operation is not allowed as it contains: \"import\"" :=
  ⟨by decide, by decide,
   c3_import_rejected_when_not_address c3file emptyMap "import os"
     (by decide) (by decide)⟩

/-- Whether an `Except` computation succeeded (used to discharge concrete
build hypotheses). -/
def exceptIsOk {ε α : Type} : Except ε α → Bool
  | Except.ok _ => true
  | Except.error _ => false

/-! ## C9 -/

/-- C9 (confirmed): when no dataset qualifies for `arrays` (no non-soft-link
dataset with at least one dimension) and the NeXus pre-seeding left `arrays`
empty, `map_hdf` raises — the modal-size computation `max(set(array_sizes),
key=...)` is applied to an empty collection — instead of returning a map
with empty `scannables`; and `HdfMap2` fails the same way whenever no array
entry refers to a dataset with element count greater than 1
(`most_common_size` filters sizes `> 1`). -/
theorem c9_no_arrays_raises :
    (∀ (f : HFile) (s : HdfMapS),
      seedDefaults f emptyMap = Except.ok s → s.arrays = [] →
      hasArrDsetL f.children = false →
      ∃ e, mapHdf f = Except.error e) ∧
    (∀ f : HFile,
      ((visitList emptyMap "" f.children).arrays.all (fun kv =>
        match dlookup (visitList emptyMap "" f.children).datasets kv.2 with
        | some i => decide (i.size ≤ 1)
        | none => true)) = true →
      ∃ e, hdfMap2Build f = Except.error e) := by
  constructor
  · intro f s hseed harr hno
    unfold mapHdf
    rw [hseed]
    simp only []
    have harr2 : (visitList s "" f.children).arrays = [] :=
      (arrays_visitList "" f.children s hno).trans harr
    rw [harr2]
    exact ⟨_, rfl⟩
  · intro f hall
    unfold hdfMap2Build
    simp only []
    cases hc : collectSizes (visitList emptyMap "" f.children).datasets
        (visitList emptyMap "" f.children).arrays with
    | error e => exact ⟨e, rfl⟩
    | ok pairs =>
        simp only []
        have hempty : (pairs.map (fun t => t.2.2)).filter
            (fun s => decide (s > 1)) = [] := by
          rw [List.filter_eq_nil_iff]
          intro sz hsz
          obtain ⟨t, ht, rfl⟩ := List.mem_map.mp hsz
          obtain ⟨i, hlk, hsz'⟩ := collectSizes_ok_size hc t ht
          have hmem : (t.1, t.2.1) ∈ (visitList emptyMap "" f.children).arrays := by
            have hproj := collectSizes_ok_proj hc
            rw [← hproj]
            exact List.mem_map.mpr ⟨t, ht, rfl⟩
          have hle := List.all_eq_true.mp hall _ hmem
          simp only [] at hle
          rw [hlk] at hle
          simp only [decide_eq_true_eq] at hle
          simp only [decide_eq_true_eq]
          omega
        rw [hempty]
        exact ⟨_, rfl⟩

/-- The C9 witness file for the `map_hdf` part: one scalar dataset, no NeXus
defaults. -/
def c9fileA : HFile :=
  { filename := "/tmp/c9a.nxs", attrs := noAttrs,
    children := [("e", HNode.grp noAttrs false
      [("t", HNode.dset [] noAttrs false 5)])] }

/-- The C9 witness file for the `HdfMap2` part: one length-1 array. -/
def c9fileB : HFile :=
  { filename := "/tmp/c9b.nxs", attrs := noAttrs,
    children := [("e", HNode.grp noAttrs false
      [("x", HNode.dset [1] noAttrs false 2)])] }

/-- C9 witness: both failure modes exhibited on concrete files. -/
theorem c9_witness :
    (∃ e, mapHdf c9fileA = Except.error e) ∧
    (∃ e, hdfMap2Build c9fileB = Except.error e) :=
  ⟨c9_no_arrays_raises.1 c9fileA emptyMap (by decide) (by decide) (by decide),
   c9_no_arrays_raises.2 c9fileB (by decide)⟩

/-! ## C7 -/

/-- C7 (confirmed): for every group found by the traversal (last
registration at its address winning), the class tag recorded in `groups` is
`pyClassTag` of its attributes — the decoded byte-string `NX_class` when
present, the plain string via the `AttributeError` path, and the default
`"Group"` when the attribute is missing or its read raises `OSError` — and
registration of every group in the file (including those after a failing
one) shows the traversal is never aborted by such a failure. -/
theorem c7_group_class_tag (f : HFile) (m : HdfMapS)
    (h : mapHdf f = Except.ok m) (addr : String) (attrs : NodeAttrs)
    (hfind : findGrpL "" addr f.children = some attrs) :
    dlookup m.groups addr = some (pyClassTag attrs, addressName addr) := by
  obtain ⟨m1, pairs, maxArray, hs, hc, hp, hm⟩ := mapHdf_ok_spec h
  subst hm
  show dlookup (visitList m1 "" f.children).groups addr = _
  rw [groups_visitList "" addr f.children m1, hfind]

/-- Attributes of a group whose attribute store raises `OSError`. -/
def c7badAttrs : NodeAttrs :=
  { noAttrs with readable := false, nx_class := some (NxClassVal.bytes "NXentry") }

/-- Attributes with a byte-string `NX_class`. -/
def c7bytesAttrs : NodeAttrs :=
  { noAttrs with nx_class := some (NxClassVal.bytes "NXdata") }

/-- Attributes with an `str` `NX_class` (the `AttributeError` path). -/
def c7strAttrs : NodeAttrs :=
  { noAttrs with nx_class := some (NxClassVal.text "NXmonitor") }

/-- The C7 witness file: an unreadable-attribute group followed by further
groups (byte-string class, missing class, str class) and one array dataset. -/
def c7file : HFile :=
  { filename := "/tmp/c7.nxs", attrs := noAttrs,
    children :=
      [("bad", HNode.grp c7badAttrs false []),
       ("good", HNode.grp c7bytesAttrs false
         [("x", HNode.dset [4] noAttrs false 1)]),
       ("noattr", HNode.grp noAttrs false []),
       ("strcls", HNode.grp c7strAttrs false [])] }

/-- C7 witness: the theorem applied to each group of the concrete file; the
groups after the failing one are present, so the failure did not abort the
traversal. -/
theorem c7_witness :
    ∃ m, mapHdf c7file = Except.ok m ∧
      dlookup m.groups "/bad" = some ("Group", "bad") ∧
      dlookup m.groups "/good" = some ("NXdata", "good") ∧
      dlookup m.groups "/noattr" = some ("Group", "noattr") ∧
      dlookup m.groups "/strcls" = some ("NXmonitor", "strcls") := by
  cases hm : mapHdf c7file with
  | error e =>
      have hok : exceptIsOk (mapHdf c7file) = true := by decide
      rw [hm] at hok
      simp [exceptIsOk] at hok
  | ok m =>
      refine ⟨m, rfl, ?_, ?_, ?_, ?_⟩
      · have hthm := c7_group_class_tag c7file m hm "/bad" c7badAttrs (by decide)
        rw [show pyClassTag c7badAttrs = "Group" from by decide,
            show addressName "/bad" = "bad" from by decide] at hthm
        exact hthm
      · have hthm := c7_group_class_tag c7file m hm "/good" c7bytesAttrs (by decide)
        rw [show pyClassTag c7bytesAttrs = "NXdata" from by decide,
            show addressName "/good" = "good" from by decide] at hthm
        exact hthm
      · have hthm := c7_group_class_tag c7file m hm "/noattr" noAttrs (by decide)
        rw [show pyClassTag noAttrs = "Group" from by decide,
            show addressName "/noattr" = "noattr" from by decide] at hthm
        exact hthm
      · have hthm := c7_group_class_tag c7file m hm "/strcls" c7strAttrs (by decide)
        rw [show pyClassTag c7strAttrs = "NXmonitor" from by decide,
            show addressName "/strcls" = "strcls" from by decide] at hthm
        exact hthm

/-! ## Scannables lemmas (shared by the map-shape claims) -/

theorem scannables_lookup {ds : SDict DsetInfo} {arl : SDict String}
    {pairs : List (String × String × Nat)} (hnd : NoDupKeys arl)
    (hc : collectSizes ds arl = Except.ok pairs)
    (q : String × String × Nat → Bool) {n a : String}
    (h : dlookup ((pairs.filter q).map (fun t => (t.1, t.2.1))) n = some a) :
    dlookup arl n = some a ∧
      ∃ t, t ∈ pairs ∧ q t = true ∧ t.1 = n ∧ t.2.1 = a := by
  have hmem := dlookup_mem h
  obtain ⟨t, htf, hte⟩ := List.mem_map.mp hmem
  obtain ⟨htp, htq⟩ := List.mem_filter.mp htf
  have h1 : t.1 = n := congrArg Prod.fst hte
  have h2 : t.2.1 = a := congrArg Prod.snd hte
  have harl : (n, a) ∈ arl := by
    rw [← collectSizes_ok_proj hc]
    exact List.mem_map.mpr ⟨t, htp, hte⟩
  exact ⟨mem_dlookup hnd harl, t, htp, htq, h1, h2⟩

theorem scannables_noDupKeys {ds : SDict DsetInfo} {arl : SDict String}
    {pairs : List (String × String × Nat)} (hnd : NoDupKeys arl)
    (hc : collectSizes ds arl = Except.ok pairs)
    (q : String × String × Nat → Bool) :
    NoDupKeys ((pairs.filter q).map (fun t => (t.1, t.2.1))) := by
  unfold NoDupKeys dkeys at *
  rw [List.map_map]
  have hkeys : pairs.map (fun t => t.1) = arl.map (fun kv => kv.1) := by
    rw [← collectSizes_ok_proj hc, List.map_map]
    rfl
  have hnd2 : (pairs.map (fun t => t.1)).Nodup := by
    rw [hkeys]
    exact hnd
  have hsub : ((pairs.filter q).map (fun t => t.1)).Sublist
      (pairs.map (fun t => t.1)) :=
    List.Sublist.map _ (List.filter_sublist pairs)
  exact List.Nodup.sublist hsub hnd2

/-! ## C1 -/

/-- The C1 counterexample file: two 1-D datasets sharing the short name
`x`; the later registration overwrites `arrays['x']`, orphaning `/a/x`. -/
def c1file : HFile :=
  { filename := "/tmp/c1.nxs", attrs := noAttrs,
    children :=
      [("a", HNode.grp noAttrs false [("x", HNode.dset [5] noAttrs false 1)]),
       ("b", HNode.grp noAttrs false [("x", HNode.dset [5] noAttrs false 2)])] }

/-- C1 (counterexample): after a successful `map_hdf`, the address `/a/x` is
a key of `datasets` but appears in none of `arrays`, `values`, or
`image_data` — the converse inclusion of the claim fails under short-name
collision. -/
theorem c1_counterexample :
    (match mapHdf c1file with
     | Except.ok m =>
         (dlookup m.datasets "/a/x").isSome &&
         m.arrays.all (fun kv => kv.2 != "/a/x") &&
         m.values.all (fun kv => kv.2 != "/a/x") &&
         m.image_data.all (fun kv => kv.1 != "/a/x")
     | Except.error _ => false) = true := by decide

/-- C1 (amended): after map building completes, every address stored in
`arrays`, `values`, or `image_data` is a key in `datasets`; and conversely
every key of `datasets` is an `image_data` key, or is bound in `arrays` or
`values` under its stored short name, or was orphaned by a name collision —
its short name is bound in `arrays` or `values` to a different `datasets`
key. -/
theorem c1_dataset_classification (f : HFile) (m : HdfMapS)
    (h : mapHdf f = Except.ok m) :
    (∀ n a, dlookup m.arrays n = some a → (dlookup m.datasets a).isSome = true) ∧
    (∀ n a, dlookup m.values n = some a → (dlookup m.datasets a).isSome = true) ∧
    (∀ a, (dlookup m.image_data a).isSome = true →
      (dlookup m.datasets a).isSome = true) ∧
    (∀ a i, dlookup m.datasets a = some i →
      (dlookup m.image_data a).isSome = true ∨
      dlookup m.arrays i.name = some a ∨ dlookup m.values i.name = some a ∨
      ∃ b, b ≠ a ∧
        (dlookup m.arrays i.name = some b ∨ dlookup m.values i.name = some b) ∧
        (dlookup m.datasets b).isSome = true) := by
  obtain ⟨m1, pairs, maxArray, hs, hc, hp, hm⟩ := mapHdf_ok_spec h
  have hgood : GoodMap (visitList m1 "" f.children) :=
    goodMap_visitList "" f.children m1 (goodMap_seedDefaults hs)
  obtain ⟨hvN, haN, hdN, hiN, hvd, hid, hcov⟩ := hgood
  subst hm
  refine ⟨?_, ?_, ?_, ?_⟩
  · intro n a hla
    exact collectSizes_ok_lookup hc (n, a) (dlookup_mem hla)
  · intro n a hla
    exact hvd n a hla
  · intro a hla
    exact hid a hla
  · intro a i hla
    rcases hcov a i hla with himg | ⟨b, hb, hbs⟩
    · exact Or.inl himg
    · by_cases hba : b = a
      · subst hba
        rcases hb with h1 | h1
        · exact Or.inr (Or.inl h1)
        · exact Or.inr (Or.inr (Or.inl h1))
      · exact Or.inr (Or.inr (Or.inr ⟨b, hba, hb, hbs⟩))

/-- The C1 witness file: one array and one scalar dataset. -/
def c1wfile : HFile :=
  { filename := "/tmp/c1w.nxs", attrs := noAttrs,
    children := [("e", HNode.grp noAttrs false
      [("x", HNode.dset [3] noAttrs false 1),
       ("t", HNode.dset [] noAttrs false 2)])] }

/-- C1 witness: the amended theorem applied to a concrete file. -/
theorem c1_witness :
    ∃ m, mapHdf c1wfile = Except.ok m ∧
      dlookup m.arrays "x" = some "/e/x" ∧
      (dlookup m.datasets "/e/x").isSome = true := by
  cases hm : mapHdf c1wfile with
  | error e =>
      have hok : exceptIsOk (mapHdf c1wfile) = true := by decide
      rw [hm] at hok
      simp [exceptIsOk] at hok
  | ok m =>
      have hx : dlookup m.arrays "x" = some "/e/x" := by
        have h2 : (match mapHdf c1wfile with
          | Except.ok mm => dlookup mm.arrays "x" == some "/e/x"
          | Except.error _ => false) = true := by decide
        rw [hm] at h2
        exact eq_of_beq h2
      exact ⟨m, rfl, hx,
        (c1_dataset_classification c1wfile m hm).1 "x" "/e/x" hx⟩

/-! ## C6 -/

/-- C6 (confirmed): after a successful `map_hdf`, `combined` — built as
`{**values, **arrays, **scannables}` — contains no address absent from
`datasets`, and on any name bound in both `values` and `arrays` it agrees
with `arrays` (arrays win the collision, and `scannables`, being a
restriction of `arrays`, never changes a winner). -/
theorem c6_combined_overlay (f : HFile) (m : HdfMapS)
    (h : mapHdf f = Except.ok m) :
    (∀ n a, dlookup m.combined n = some a →
      (dlookup m.datasets a).isSome = true) ∧
    (∀ n, (dlookup m.values n).isSome = true →
      (dlookup m.arrays n).isSome = true →
      dlookup m.combined n = dlookup m.arrays n) := by
  obtain ⟨m1, pairs, maxArray, hs, hc, hp, hm⟩ := mapHdf_ok_spec h
  have hgood : GoodMap (visitList m1 "" f.children) :=
    goodMap_visitList "" f.children m1 (goodMap_seedDefaults hs)
  obtain ⟨hvN, haN, hdN, hiN, hvd, hid, hcov⟩ := hgood
  have hsN := scannables_noDupKeys haN hc (fun t => t.2.2 = maxArray)
  subst hm
  have hcomb : ∀ k, dlookup
      (pyMerge [(visitList m1 "" f.children).values,
        (visitList m1 "" f.children).arrays,
        (pairs.filter (fun t => t.2.2 = maxArray)).map (fun t => (t.1, t.2.1))]) k =
      ((dlookup ((pairs.filter (fun t => t.2.2 = maxArray)).map
            (fun t => (t.1, t.2.1))) k).orElse (fun _ =>
        (dlookup (visitList m1 "" f.children).arrays k).orElse (fun _ =>
          dlookup (visitList m1 "" f.children).values k))) := by
    intro k
    rw [dlookup_pyMerge3, dlookup_reverse_of_noDup hsN,
        dlookup_reverse_of_noDup haN, dlookup_reverse_of_noDup hvN]
  constructor
  · intro n a hla
    simp only [] at hla
    rw [hcomb n] at hla
    cases hls : dlookup ((pairs.filter (fun t => t.2.2 = maxArray)).map
        (fun t => (t.1, t.2.1))) n with
    | some a' =>
        rw [hls] at hla
        simp only [Option.orElse] at hla
        cases hla
        obtain ⟨_, t, htp, _, _, hta⟩ := scannables_lookup haN hc _ hls
        obtain ⟨i, hlk, _⟩ := collectSizes_ok_size hc t htp
        rw [hta] at hlk
        simp [hlk]
    | none =>
        rw [hls] at hla
        simp only [Option.orElse] at hla
        cases hlaA : dlookup (visitList m1 "" f.children).arrays n with
        | some a' =>
            rw [hlaA] at hla
            simp only [] at hla
            cases hla
            exact collectSizes_ok_lookup hc (n, a) (dlookup_mem hlaA)
        | none =>
            rw [hlaA] at hla
            simp only [] at hla
            exact hvd n a hla
  · intro n hvS haS
    simp only [] at hvS haS ⊢
    rw [hcomb n]
    cases hls : dlookup ((pairs.filter (fun t => t.2.2 = maxArray)).map
        (fun t => (t.1, t.2.1))) n with
    | some a' =>
        obtain ⟨harl, _⟩ := scannables_lookup haN hc _ hls
        rw [harl]
        rfl
    | none =>
        obtain ⟨a', ha'⟩ := Option.isSome_iff_exists.mp haS
        rw [ha']
        rfl

/-- The C6 witness file: the name `x` is bound both as a scalar (`/e/x`)
and as an array (`/e/g/x`). -/
def c6wfile : HFile :=
  { filename := "/tmp/c6w.nxs", attrs := noAttrs,
    children := [("e", HNode.grp noAttrs false
      [("g", HNode.grp noAttrs false [("x", HNode.dset [4] noAttrs false 1)]),
       ("x", HNode.dset [] noAttrs false 2),
       ("y", HNode.dset [4] noAttrs false 3)])] }

/-- C6 witness: the theorem applied to a concrete file with a
`values`/`arrays` name collision. -/
theorem c6_witness :
    ∃ m, mapHdf c6wfile = Except.ok m ∧
      (dlookup m.values "x").isSome = true ∧
      (dlookup m.arrays "x").isSome = true ∧
      dlookup m.combined "x" = dlookup m.arrays "x" := by
  cases hm : mapHdf c6wfile with
  | error e =>
      have hok : exceptIsOk (mapHdf c6wfile) = true := by decide
      rw [hm] at hok
      simp [exceptIsOk] at hok
  | ok m =>
      have hv : (dlookup m.values "x").isSome = true := by
        have h2 : (match mapHdf c6wfile with
          | Except.ok mm => (dlookup mm.values "x").isSome
          | Except.error _ => false) = true := by decide
        rw [hm] at h2
        exact h2
      have ha : (dlookup m.arrays "x").isSome = true := by
        have h2 : (match mapHdf c6wfile with
          | Except.ok mm => (dlookup mm.arrays "x").isSome
          | Except.error _ => false) = true := by decide
        rw [hm] at h2
        exact h2
      exact ⟨m, rfl, hv, ha, (c6_combined_overlay c6wfile m hm).2 "x" hv ha⟩

/-! ## C2 -/

/-- The C2 counterexample file: two length-1 arrays and one length-5 array;
`map_hdf` takes the mode over all array sizes including 1. -/
def c2file : HFile :=
  { filename := "/tmp/c2.nxs", attrs := noAttrs,
    children :=
      [("e", HNode.grp noAttrs false
        [("a1", HNode.dset [1] noAttrs false 1),
         ("a2", HNode.dset [1] noAttrs false 2),
         ("b", HNode.dset [5] noAttrs false 3)])] }

/-- C2 (counterexample): `map_hdf` does not restrict the modal size to
counts greater than 1 (line 728 has no `> 1` filter, unlike
`HdfMap2.most_common_size`): on a file with array sizes `[1, 1, 5]` the
scannable `a1` has element count 1 while the most common non-unit element
count is 5. -/
theorem c2_counterexample :
    ((match mapHdf c2file with
      | Except.ok m =>
          (dlookup m.scannables "a1" == some "/e/a1") &&
          ((dlookup m.datasets "/e/a1").map (fun i => i.size) == some 1) &&
          (specModalNonUnitSize m == some 5)
      | Except.error _ => false) = true) ∧ (1 : Nat) ≠ 5 := by
  constructor
  · decide
  · decide

/-- C2 (amended): `scannables` is always a dict-restriction of `arrays`; in
`map_hdf` every scannable's element count equals the most common element
count among all array sizes (including 1), while in `HdfMap2` it equals the
most common element count strictly greater than 1, as the claim states. -/
theorem c2_scannables_modal_size :
    (∀ (f : HFile) (m : HdfMapS), mapHdf f = Except.ok m →
      (∀ n a, dlookup m.scannables n = some a → dlookup m.arrays n = some a) ∧
      ∃ maxArray, pyMaxByCount (arraySizesOf m) = some maxArray ∧
        ∀ n a, dlookup m.scannables n = some a →
          ∃ i, dlookup m.datasets a = some i ∧ i.size = maxArray) ∧
    (∀ (f : HFile) (m : HdfMapS), hdfMap2Build f = Except.ok m →
      (∀ n a, dlookup m.scannables n = some a → dlookup m.arrays n = some a) ∧
      ∃ arraySize,
        pyMaxByCount ((arraySizesOf m).filter (fun s => decide (s > 1)))
          = some arraySize ∧ 1 < arraySize ∧
        ∀ n a, dlookup m.scannables n = some a →
          ∃ i, dlookup m.datasets a = some i ∧ i.size = arraySize) := by
  constructor
  · intro f m h
    obtain ⟨m1, pairs, maxArray, hs, hc, hp, hm⟩ := mapHdf_ok_spec h
    have hgood : GoodMap (visitList m1 "" f.children) :=
      goodMap_visitList "" f.children m1 (goodMap_seedDefaults hs)
    obtain ⟨hvN, haN, hdN, hiN, hvd, hid, hcov⟩ := hgood
    subst hm
    constructor
    · intro n a hla
      simp only [] at hla ⊢
      exact (scannables_lookup haN hc _ hla).1
    · refine ⟨maxArray, ?_, ?_⟩
      · show pyMaxByCount (arraySizesOf
          { visitList m1 "" f.children with
            scannables := (pairs.filter (fun t => t.2.2 = maxArray)).map
              (fun t => (t.1, t.2.1)),
            combined := pyMerge [(visitList m1 "" f.children).values,
              (visitList m1 "" f.children).arrays,
              (pairs.filter (fun t => t.2.2 = maxArray)).map
                (fun t => (t.1, t.2.1))] }) = some maxArray
        unfold arraySizesOf
        simp only []
        rw [collectSizes_ok_sizes hc]
        exact hp
      · intro n a hla
        simp only [] at hla
        obtain ⟨_, t, htp, htq, _, hta⟩ := scannables_lookup haN hc _ hla
        obtain ⟨i, hlk, hsz⟩ := collectSizes_ok_size hc t htp
        rw [hta] at hlk
        refine ⟨i, hlk, ?_⟩
        rw [hsz]
        exact of_decide_eq_true htq
  · intro f m h
    obtain ⟨pairs, arraySize, hc, hp, hm⟩ := hdfMap2Build_ok_spec h
    have hgood : GoodMap (visitList emptyMap "" f.children) :=
      goodMap_visitList "" f.children emptyMap goodMap_emptyMap
    obtain ⟨hvN, haN, hdN, hiN, hvd, hid, hcov⟩ := hgood
    subst hm
    constructor
    · intro n a hla
      simp only [] at hla ⊢
      exact (scannables_lookup haN hc _ hla).1
    · refine ⟨arraySize, ?_, ?_, ?_⟩
      · show pyMaxByCount ((arraySizesOf
          { visitList emptyMap "" f.children with
            scannables := (pairs.filter (fun t => t.2.2 = arraySize)).map
              (fun t => (t.1, t.2.1)),
            combined := pyMerge [(visitList emptyMap "" f.children).values,
              (visitList emptyMap "" f.children).arrays,
              (pairs.filter (fun t => t.2.2 = arraySize)).map
                (fun t => (t.1, t.2.1))] }).filter (fun s => decide (s > 1)))
          = some arraySize
        unfold arraySizesOf
        simp only []
        rw [collectSizes_ok_sizes hc]
        exact hp
      · have hmem := pyMaxByCount_mem hp
        have := List.mem_filter.mp hmem
        exact of_decide_eq_true this.2
      · intro n a hla
        simp only [] at hla
        obtain ⟨_, t, htp, htq, _, hta⟩ := scannables_lookup haN hc _ hla
        obtain ⟨i, hlk, hsz⟩ := collectSizes_ok_size hc t htp
        rw [hta] at hlk
        refine ⟨i, hlk, ?_⟩
        rw [hsz]
        exact of_decide_eq_true htq

/-- The C2 witness file: two length-4 arrays and a scalar. -/
def c2wfile : HFile :=
  { filename := "/tmp/c2w.nxs", attrs := noAttrs,
    children := [("e", HNode.grp noAttrs false
      [("x", HNode.dset [4] noAttrs false 1),
       ("y", HNode.dset [4] noAttrs false 2),
       ("t", HNode.dset [] noAttrs false 3)])] }

/-- C2 witness: both parts of the amended theorem applied to a concrete
file. -/
theorem c2_witness :
    (∃ m, mapHdf c2wfile = Except.ok m ∧
      dlookup m.scannables "x" = some "/e/x" ∧
      dlookup m.arrays "x" = some "/e/x") ∧
    (∃ m, hdfMap2Build c2wfile = Except.ok m ∧
      dlookup m.scannables "x" = some "/e/x" ∧
      dlookup m.arrays "x" = some "/e/x") := by
  constructor
  · cases hm : mapHdf c2wfile with
    | error e =>
        have hok : exceptIsOk (mapHdf c2wfile) = true := by decide
        rw [hm] at hok
        simp [exceptIsOk] at hok
    | ok m =>
        have hx : dlookup m.scannables "x" = some "/e/x" := by
          have h2 : (match mapHdf c2wfile with
            | Except.ok mm => dlookup mm.scannables "x" == some "/e/x"
            | Except.error _ => false) = true := by decide
          rw [hm] at h2
          exact eq_of_beq h2
        exact ⟨m, rfl, hx,
          ((c2_scannables_modal_size.1 c2wfile m hm).1 "x" "/e/x" hx)⟩
  · cases hm : hdfMap2Build c2wfile with
    | error e =>
        have hok : exceptIsOk (hdfMap2Build c2wfile) = true := by decide
        rw [hm] at hok
        simp [exceptIsOk] at hok
    | ok m =>
        have hx : dlookup m.scannables "x" = some "/e/x" := by
          have h2 : (match hdfMap2Build c2wfile with
            | Except.ok mm => dlookup mm.scannables "x" == some "/e/x"
            | Except.error _ => false) = true := by decide
          rw [hm] at h2
          exact eq_of_beq h2
        exact ⟨m, rfl, hx,
          ((c2_scannables_modal_size.2 c2wfile m hm).1 "x" "/e/x" hx)⟩

/-! ## C5 -/

/-- The C5 counterexample file: a dataset whose short name `important`
contains the deny-listed substring `import`. -/
def c5file : HFile :=
  { filename := "/tmp/c5.nxs", attrs := noAttrs,
    children := [("a", HNode.grp noAttrs false
      [("important", HNode.dset [3] noAttrs false 7)])] }

/-- C5 (counterexample): with `combined['important'] = '/a/important'`, the
raw address evaluates to the dataset value via the direct-address shortcut,
but evaluating the short name raises the deny-list exception
(`'import' in 'important'`), so the two paths disagree. -/
theorem c5_counterexample :
    (match mapHdf c5file with
     | Except.ok m =>
         (dlookup m.combined "important" == some "/a/important") &&
         (evalHdf c5file (some m) "/a/important" == Except.ok (Val.int 7)) &&
         (evalHdf c5file (some m) "important" ==
           Except.error "This operation is not allowed as it contains: \"import\"")
     | Except.error _ => false) = true := by decide

/-- C5 (amended): evaluating a raw dataset address and evaluating its short
name through `combined` agree — both return the dataset's value — provided
the short name is a well-formed identifier, passes the deny-list check, is
not itself an address present in the file, and every `combined` entry
resolves to a dataset (so namespace construction succeeds). -/
theorem c5_direct_address_agrees (f : HFile) (m : HdfMapS)
    (name addr : String) (v : Int)
    (h1 : dlookup m.combined name = some addr)
    (h2 : dsetValueAt f addr = some v)
    (h3 : (resolvePath f name).isNone = true)
    (h4 : checkNaughtyEval name = Except.ok ())
    (h5 : isPyIdentifier name = true)
    (h6 : m.combined.all (fun kv =>
      match resolvePath f kv.2 with
      | some (HNode.dset _ _ _ _) => true
      | _ => false) = true) :
    evalHdf f (some m) name = Except.ok (Val.int v) ∧
    evalHdf f (some m) addr = Except.ok (Val.int v) := by
  have haddr : ∃ sh att sf, resolvePath f addr = some (HNode.dset sh att sf v) := by
    unfold dsetValueAt at h2
    cases hr : resolvePath f addr with
    | none => rw [hr] at h2; exact absurd h2 (by simp)
    | some node =>
        cases node with
        | grp a s c => rw [hr] at h2; exact absurd h2 (by simp)
        | dset sh att sf v' =>
            rw [hr] at h2
            simp only [] at h2
            cases h2
            exact ⟨sh, att, sf, rfl⟩
  obtain ⟨sh, att, sf, hra⟩ := haddr
  have hfetch : fetchVal f addr = Except.ok (Val.int v) := by
    unfold fetchVal
    rw [hra]
  constructor
  · have hmem : name ∈ varnamesFor m name := by
      unfold varnamesFor
      apply List.mem_append_left
      exact List.mem_filter.mpr
        ⟨List.mem_map.mpr ⟨(name, addr), dlookup_mem h1, rfl⟩, containsSub_refl name⟩
    obtain ⟨fetched, hcf⟩ := collectFetch_ok_of_all h6 (varnamesFor m name)
    have hg : generateNamespace f m.combined (varnamesFor m name) = Except.ok
        (pyMerge [nsDefaults m.combined (varnamesFor m name), nsExtras f,
          nsAddresses m.combined (varnamesFor m name), dofList fetched]) := by
      unfold generateNamespace
      rw [hcf]
    have hns := ns_lookup_resolved hg hmem h1 hfetch
    have hg' : namespaceFor f m name = Except.ok
        (pyMerge [nsDefaults m.combined (varnamesFor m name), nsExtras f,
          nsAddresses m.combined (varnamesFor m name), dofList fetched]) := by
      unfold namespaceFor
      exact hg
    unfold evalHdf
    cases hrn : resolvePath f name with
    | some n2 => rw [hrn] at h3; simp at h3
    | none =>
        simp only []
        rw [h4]
        simp only []
        rw [hg']
        simp only []
        unfold pyEval
        rw [h5]
        simp only [if_true]
        rw [hns]
  · unfold evalHdf
    rw [hra]

/-- The C5 witness file: one array dataset `eta`. -/
def c5wfile : HFile :=
  { filename := "/tmp/c5w.nxs", attrs := noAttrs,
    children := [("a", HNode.grp noAttrs false
      [("eta", HNode.dset [3] noAttrs false 7)])] }

/-- C5 witness: the amended theorem applied to the map built from a concrete
file; both evaluation paths return the dataset value. -/
theorem c5_witness :
    ∃ m, mapHdf c5wfile = Except.ok m ∧
      dlookup m.combined "eta" = some "/a/eta" ∧
      evalHdf c5wfile (some m) "eta" = Except.ok (Val.int 7) ∧
      evalHdf c5wfile (some m) "/a/eta" = Except.ok (Val.int 7) := by
  cases hm : mapHdf c5wfile with
  | error e =>
      have hok : exceptIsOk (mapHdf c5wfile) = true := by decide
      rw [hm] at hok
      simp [exceptIsOk] at hok
  | ok m =>
      have h1 : dlookup m.combined "eta" = some "/a/eta" := by
        have h2 : (match mapHdf c5wfile with
          | Except.ok mm => dlookup mm.combined "eta" == some "/a/eta"
          | Except.error _ => false) = true := by decide
        rw [hm] at h2
        exact eq_of_beq h2
      have h6 : m.combined.all (fun kv =>
          match resolvePath c5wfile kv.2 with
          | some (HNode.dset _ _ _ _) => true
          | _ => false) = true := by
        have h2 : (match mapHdf c5wfile with
          | Except.ok mm => mm.combined.all (fun kv =>
              match resolvePath c5wfile kv.2 with
              | some (HNode.dset _ _ _ _) => true
              | _ => false)
          | Except.error _ => false) = true := by decide
        rw [hm] at h2
        exact h2
      obtain ⟨hname, haddr⟩ := c5_direct_address_agrees c5wfile m "eta" "/a/eta" 7
        h1 (by decide) (by decide) (by decide) (by decide) h6
      exact ⟨m, rfl, h1, hname, haddr⟩

/-! ## C8 -/

/-- The C8 counterexample file. -/
def c8file : HFile :=
  { filename := "/tmp/dir/c8.nxs", attrs := noAttrs,
    children := [("e", HNode.grp noAttrs false
      [("eta", HNode.dset [2] noAttrs false 9)])] }

/-- C8 (counterexample): for the expression `filename` — a syntactic
identifier that is neither a builtin nor the numeric alias and is absent
from the built map's `combined` — the namespace binds the file's base name,
not the sentinel default: the `extras` merge layer overrides the sentinel
(`{**defaults, **extras, **addresses, **namespace}`, line 770). -/
theorem c8_counterexample :
    ("filename" ∈ findVarnames "filename") ∧
    ((match mapHdf c8file with
      | Except.ok m =>
          (dlookup m.combined "filename" == none) &&
          (match namespaceFor c8file m "filename" with
           | Except.ok ns => dlookup ns "filename" == some (Val.str "c8.nxs")
           | Except.error _ => false)
      | Except.error _ => false) = true) ∧
    Val.str "c8.nxs" ≠ Val.sentinel := by
  refine ⟨?_, ?_, ?_⟩
  · decide
  · decide
  · decide

/-- C8 (amended): in the namespace built for an expression, every `combined`
name occurring as a substring of the expression binds its fetched dataset
value; every other discovered identifier binds the sentinel default unless
it is `filename`/`filepath` (bound by the extras layer) or the underscore
alias of a resolved name (bound by the addresses layer); `filename` and
`filepath` bind the file's base name and full path unless shadowed by a
resolved name; and every resolved name has an underscore-prefixed alias
bound to its address unless that alias is itself a resolved name. -/
theorem c8_namespace_bindings (f : HFile) (m : HdfMapS) (expr : String)
    (ns : SDict Val) (h : namespaceFor f m expr = Except.ok ns) :
    (∀ n a w, dlookup m.combined n = some a → containsSub n expr = true →
      fetchVal f a = Except.ok w → dlookup ns n = some w) ∧
    (∀ n, n ∈ findVarnames expr → dlookup m.combined n = none →
      n ≠ "filename" → n ≠ "filepath" →
      (∀ r, r ∈ varnamesFor m expr → (dlookup m.combined r).isSome →
        "_" ++ r ≠ n) →
      dlookup ns n = some Val.sentinel) ∧
    (¬("filename" ∈ varnamesFor m expr ∧
        (dlookup m.combined "filename").isSome = true) →
      dlookup ns "filename" = some (Val.str (pyBasename f.filename))) ∧
    (¬("filepath" ∈ varnamesFor m expr ∧
        (dlookup m.combined "filepath").isSome = true) →
      dlookup ns "filepath" = some (Val.str f.filename)) ∧
    (∀ n a, n ∈ varnamesFor m expr → dlookup m.combined n = some a →
      ¬("_" ++ n ∈ varnamesFor m expr ∧
        (dlookup m.combined ("_" ++ n)).isSome = true) →
      dlookup ns ("_" ++ n) = some (Val.str a)) := by
  unfold namespaceFor at h
  refine ⟨?_, ?_, ns_lookup_filename h, ns_lookup_filepath h, ?_⟩
  · intro n a w h1 h2 hf
    refine ns_lookup_resolved h ?_ h1 hf
    unfold varnamesFor
    exact List.mem_append_left _
      (List.mem_filter.mpr ⟨List.mem_map.mpr ⟨(n, a), dlookup_mem h1, rfl⟩, h2⟩)
  · intro n hmem hnone hne1 hne2 hsh
    refine ns_lookup_default h ?_ hnone hne1 hne2 hsh
    unfold varnamesFor
    exact List.mem_append_right _ hmem
  · intro n a hmem hna hsh
    exact ns_lookup_alias h hmem hna hsh

/-- The C8 witness file. -/
def c8wfile : HFile :=
  { filename := "/tmp/w8.nxs", attrs := noAttrs,
    children := [("eta", HNode.dset [2] noAttrs false 9)] }

/-- The C8 witness map. -/
def c8wmap : HdfMapS := { emptyMap with combined := [("eta", "/eta")] }

/-- C8 witness: the amended theorem applied at a concrete file, map and
expression, exhibiting the fetched value, the underscore alias and the two
extras. -/
theorem c8_witness :
    ∃ ns, namespaceFor c8wfile c8wmap "eta" = Except.ok ns ∧
      dlookup ns "eta" = some (Val.int 9) ∧
      dlookup ns ("_" ++ "eta") = some (Val.str "/eta") ∧
      dlookup ns "filename" = some (Val.str "w8.nxs") ∧
      dlookup ns "filepath" = some (Val.str "/tmp/w8.nxs") := by
  cases hn : namespaceFor c8wfile c8wmap "eta" with
  | error e =>
      have hok : exceptIsOk (namespaceFor c8wfile c8wmap "eta") = true := by decide
      rw [hn] at hok
      simp [exceptIsOk] at hok
  | ok ns =>
      obtain ⟨hres, hdef, hfn, hfp, hal⟩ :=
        c8_namespace_bindings c8wfile c8wmap "eta" ns hn
      refine ⟨ns, rfl, ?_, ?_, ?_, ?_⟩
      · exact hres "eta" "/eta" (Val.int 9) (by decide) (by decide) (by decide)
      · exact hal "eta" "/eta" (by decide) (by decide) (by decide)
      · exact hfn (by decide)
      · exact hfp (by decide)

/-! ## C10 -/

/-- C10 (confirmed): the namespace is merged as
`{**defaults, **extras, **addresses, **namespace}` — sentinel defaults,
then the fixed extras, then the underscore address aliases, then the
fetched dataset values — so a resolved name always shadows the sentinel
default, and a dataset whose short name is literally `filename` or
`filepath` shadows the fixed file-name/file-path binding. -/
theorem c10_namespace_merge_order (f : HFile) (na : SDict String)
    (vns : List String) (ns : SDict Val)
    (h : generateNamespace f na vns = Except.ok ns) :
    (∀ n a w, n ∈ vns → dlookup na n = some a → fetchVal f a = Except.ok w →
      dlookup ns n = some w) ∧
    (¬("filename" ∈ vns ∧ (dlookup na "filename").isSome = true) →
      dlookup ns "filename" = some (Val.str (pyBasename f.filename))) ∧
    (¬("filepath" ∈ vns ∧ (dlookup na "filepath").isSome = true) →
      dlookup ns "filepath" = some (Val.str f.filename)) ∧
    (∀ a w, "filename" ∈ vns → dlookup na "filename" = some a →
      fetchVal f a = Except.ok w → dlookup ns "filename" = some w) := by
  refine ⟨?_, ns_lookup_filename h, ns_lookup_filepath h, ?_⟩
  · intro n a w hmem hna hf
    exact ns_lookup_resolved h hmem hna hf
  · intro a w hmem hna hf
    exact ns_lookup_resolved h hmem hna hf

/-- The C10 witness file: a dataset whose short name is literally
`filename`. -/
def c10wfile : HFile :=
  { filename := "/tmp/c10.nxs", attrs := noAttrs,
    children := [("e", HNode.grp noAttrs false
      [("filename", HNode.dset [] noAttrs false 4)])] }

/-- The C10 witness name-address dict. -/
def c10na : SDict String := [("filename", "/e/filename")]

/-- C10 witness: the dataset named `filename` shadows the fixed base-name
binding, while `filepath` (unresolved) keeps the fixed full-path binding. -/
theorem c10_witness :
    ∃ ns, generateNamespace c10wfile c10na ["filename", "other"]
        = Except.ok ns ∧
      dlookup ns "filename" = some (Val.int 4) ∧
      dlookup ns "filepath" = some (Val.str "/tmp/c10.nxs") := by
  cases hn : generateNamespace c10wfile c10na ["filename", "other"] with
  | error e =>
      have hok : exceptIsOk
          (generateNamespace c10wfile c10na ["filename", "other"]) = true := by
        decide
      rw [hn] at hok
      simp [exceptIsOk] at hok
  | ok ns =>
      obtain ⟨hres, hfn, hfp, hshadow⟩ :=
        c10_namespace_merge_order c10wfile c10na ["filename", "other"] ns hn
      exact ⟨ns, rfl,
        hshadow "/e/filename" (Val.int 4) (by decide) (by decide) (by decide),
        hfp (by decide)⟩
